import Mathlib

/-!
# ResumeR ingestion pipeline

A shallow embedding of the server side of the resume parser:

* `cleanJsonResponse` (`src/api/routes/parsing.js`), the normaliser that
  recovers a JSON container from a model response;
* the `POST /parse` route handler of the same file;
* `securityMiddleware` (`src/api/index.js`), the per-client rate limiter.

JavaScript strings are modelled as lists of characters.  None of the
characters the code inspects (white space, the backtick, the four bracket
characters, the letters of `json`) lies outside the Basic Multilingual
Plane, so working with code points instead of UTF-16 code units changes
no result.
-/

namespace ResumeR

/-! ## Strings -/

/-- A JavaScript string. -/
abbrev JsString := List Char

/-- The backtick character (U+0060). -/
def backtick : Char := Char.ofNat 96

/-- The characters matched by `\s` in a JavaScript regular expression, which
are also the characters removed by `String.prototype.trim`: the ECMAScript
`WhiteSpace` and `LineTerminator` productions. -/
def isWhiteSpace (c : Char) : Bool :=
  let n := c.toNat
  n == 0x09 || n == 0x0A || n == 0x0B || n == 0x0C || n == 0x0D || n == 0x20 ||
  n == 0xA0 || n == 0x1680 || (0x2000 ≤ n && n ≤ 0x200A) ||
  n == 0x2028 || n == 0x2029 || n == 0x202F || n == 0x205F || n == 0x3000 || n == 0xFEFF

/-- The test `c == backtick`, as a predicate for `dropWhile`. -/
def isBacktick (c : Char) : Bool := c == backtick

/-- The method `String.prototype.trim`. -/
def trim (s : JsString) : JsString :=
  (s.dropWhile isWhiteSpace).rdropWhile isWhiteSpace

/-- The method `String.prototype.startsWith`. -/
def startsWith (s p : JsString) : Bool := p.isPrefixOf s

/-- The method `String.prototype.endsWith`. -/
def endsWith (s p : JsString) : Bool := p.isSuffixOf s

/-- The fence opener tagged `json`. -/
def jsonFence : JsString := "```json".toList

/-- The bare fence, opener or closer. -/
def fence : JsString := "```".toList

/-- The call `s.replace(/^```json\s*/, "")`: the pattern is anchored at the
start of the input, so it matches only when `s` starts with the tagged
opener, and the greedy `\s*` then takes every white-space character that
follows. -/
def replaceJsonFenceOpener (s : JsString) : JsString :=
  if startsWith s jsonFence then (s.drop jsonFence.length).dropWhile isWhiteSpace else s

/-- The call `s.replace(/^```\s*/, "")`. -/
def replaceFenceOpener (s : JsString) : JsString :=
  if startsWith s fence then (s.drop fence.length).dropWhile isWhiteSpace else s

/-- The call `s.replace(/\s*```$/, "")`: without the `m` flag `$` matches only
at the end of the input, so there is a match exactly when `s` ends with three
backticks, and the leftmost match starts at the beginning of the white-space
run in front of them. -/
def replaceFenceCloser (s : JsString) : JsString :=
  if endsWith s fence then (s.take (s.length - fence.length)).rdropWhile isWhiteSpace else s

/-- The call `s.replace(/^`+|`+$/g, "")`: the first alternative removes the
run of backticks at the start, the second one the run at the end. -/
def replaceBackticks (s : JsString) : JsString :=
  (s.dropWhile isBacktick).rdropWhile isBacktick

/-- The method `String.prototype.indexOf` for a one-character needle: the
index of the first occurrence, or `-1`. -/
def indexOf (s : JsString) (c : Char) : Int :=
  if c ∈ s then (s.indexOf c : Nat) else -1

/-- The method `String.prototype.lastIndexOf` for a one-character needle: the
index of the last occurrence, or `-1`. -/
def lastIndexOf (s : JsString) (c : Char) : Int :=
  if c ∈ s then ((s.length - 1 - s.reverse.indexOf c : Nat) : Int) else -1

/-- An index argument of `substring`, clamped to `[0, length]`. -/
def clampIndex (s : JsString) (i : Int) : Nat := min i.toNat s.length

/-- The method `String.prototype.substring`: both arguments are clamped to
`[0, length]` and swapped when the first is the larger one. -/
def substring (s : JsString) (start stop : Int) : JsString :=
  let a := clampIndex s start
  let b := clampIndex s stop
  (s.drop (min a b)).take (max a b - min a b)

/-! ## The response normaliser -/

/-- The first half of `cleanJsonResponse`: the value of `cleaned` when the
search for the brackets starts (trim, fence removal, backtick removal,
trim). -/
def stripWrapping (response : JsString) : JsString :=
  let cleaned := trim response
  let cleaned :=
    if startsWith cleaned jsonFence then
      replaceFenceCloser (replaceJsonFenceOpener cleaned)
    else if startsWith cleaned fence then
      replaceFenceCloser (replaceFenceOpener cleaned)
    else cleaned
  trim (replaceBackticks cleaned)

/-- The second half of `cleanJsonResponse`: the choice between the array
slice, the object slice and the text as it is. -/
def extractContainer (cleaned : JsString) : JsString :=
  let firstBrace := indexOf cleaned '{'
  let lastBrace := lastIndexOf cleaned '}'
  let firstBracket := indexOf cleaned '['
  let lastBracket := lastIndexOf cleaned ']'
  if firstBracket ≠ -1 ∧ (firstBrace = -1 ∨ firstBracket < firstBrace) then
    if lastBracket ≠ -1 then substring cleaned firstBracket (lastBracket + 1)
    else cleaned
  else if firstBrace ≠ -1 ∧ lastBrace ≠ -1 then
    substring cleaned firstBrace (lastBrace + 1)
  else cleaned

/-- The function `cleanJsonResponse` of `parsing.js`, applied to a string. -/
def cleanJsonResponse (response : JsString) : JsString :=
  extractContainer (stripWrapping response)

/-! ## The rate limiter (`securityMiddleware`) -/

/-- An entry of the object `rateLimit`: the literal with the fields `count` and
`startTime`.  Times are the integer millisecond values of `Date.now()`;
counts and times are taken as exact integers, which JavaScript numbers are
below `2 ^ 53`. -/
structure Entry where
  count : Nat
  startTime : Int
  deriving DecidableEq, Repr

/-- The own properties of the object `rateLimit`, by client key. -/
abbrev RateLimit := String → Option Entry

/-- The assignment `rateLimit[ip] = e`. -/
def RateLimit.set (rateLimit : RateLimit) (ip : String) (e : Entry) : RateLimit :=
  fun k => if k = ip then some e else rateLimit k

/-- The object `rateLimit` at the start of the process, the literal without
properties. -/
def RateLimit.empty : RateLimit := fun _ => none

/-- The members every object literal inherits from `Object.prototype`.  The
object `rateLimit` is created as a plain literal, so `rateLimit[ip]` finds
these members too, each of them a function or an object and therefore truthy,
when `ip` is one of these names and no own property hides it. -/
def objectPrototypeKeys : List String :=
  ["constructor", "__proto__", "hasOwnProperty", "isPrototypeOf", "propertyIsEnumerable",
   "toLocaleString", "toString", "valueOf", "__defineGetter__", "__defineSetter__",
   "__lookupGetter__", "__lookupSetter__"]

/-- The value of the expression `rateLimit[ip]`. -/
inductive Slot
  | missing
  | entry (e : Entry)
  | inherited
  deriving DecidableEq, Repr

/-- The property lookup `rateLimit[ip]`: an own property first, then the
prototype. -/
def RateLimit.lookup (rateLimit : RateLimit) (ip : String) : Slot :=
  match rateLimit ip with
  | some e => Slot.entry e
  | none => if ip ∈ objectPrototypeKeys then Slot.inherited else Slot.missing

/-- The constant `RATE_LIMIT_WINDOW`, in milliseconds. -/
def RATE_LIMIT_WINDOW : Int := 60 * 1000

/-- The constant `MAX_REQUESTS`. -/
def MAX_REQUESTS : Nat := 100

/-- The outcome of `securityMiddleware`: the call `next()`, or the response
429 with its `retryAfter` field. -/
inductive Decision
  | allowed
  | denied (retryAfter : Int)
  deriving DecidableEq, Repr

/-- The test for the outcome `allowed`. -/
def Decision.isAllowed : Decision → Bool
  | Decision.allowed => true
  | Decision.denied _ => false

/-- The expression `Math.ceil(x / 1000)` for an integer `x`. -/
def ceilDiv1000 (x : Int) : Int := -((-x) / 1000)

/-- The field `retryAfter` of the response 429. -/
def retryAfter (now : Int) (e : Entry) : Int :=
  ceilDiv1000 (RATE_LIMIT_WINDOW - (now - e.startTime))

/-- The first statement of `securityMiddleware`, the update of `rateLimit`.
For an inherited member `startTime` is `undefined`, the difference is `NaN`,
the comparison is false and `count++` writes `NaN` to the inherited member:
the own properties of `rateLimit` stay as they are. -/
def updateRateLimit (rateLimit : RateLimit) (ip : String) (now : Int) : RateLimit :=
  match rateLimit.lookup ip with
  | Slot.missing => rateLimit.set ip ⟨1, now⟩
  | Slot.entry e =>
    if now - e.startTime > RATE_LIMIT_WINDOW then rateLimit.set ip ⟨1, now⟩
    else rateLimit.set ip ⟨e.count + 1, e.startTime⟩
  | Slot.inherited => rateLimit

/-- The second statement of `securityMiddleware`, the threshold check.  For
an inherited member `count` is `NaN` and the comparison is false. -/
def checkRateLimit (rateLimit : RateLimit) (ip : String) (now : Int) : Decision :=
  match rateLimit.lookup ip with
  | Slot.entry e => if e.count > MAX_REQUESTS then Decision.denied (retryAfter now e)
                    else Decision.allowed
  | Slot.inherited => Decision.allowed
  | Slot.missing => Decision.allowed

/-- The function `securityMiddleware` of `index.js` for the client key `ip` at
the time `now`: the table afterwards and the outcome. -/
def securityMiddleware (rateLimit : RateLimit) (ip : String) (now : Int) :
    RateLimit × Decision :=
  let rateLimit := updateRateLimit rateLimit ip now
  (rateLimit, checkRateLimit rateLimit ip now)

/-- The requests of one client at the given times, handled one after the
other: for each request its outcome and the client's entry afterwards. -/
def serve (rateLimit : RateLimit) (ip : String) : List Int → List (Decision × Option Entry)
  | [] => []
  | now :: rest =>
    let r := securityMiddleware rateLimit ip now
    (r.2, r.1 ip) :: serve r.1 ip rest

/-- The table after the requests of one client at the given times. -/
def serveTable (rateLimit : RateLimit) (ip : String) : List Int → RateLimit
  | [] => rateLimit
  | now :: rest => serveTable (securityMiddleware rateLimit ip now).1 ip rest

/-- The outcomes of the requests of one client at the given times. -/
def decisions (rateLimit : RateLimit) (ip : String) (times : List Int) : List Decision :=
  (serve rateLimit ip times).map Prod.fst

/-- The times of the allowed requests among the requests of one client. -/
def allowedTimes (rateLimit : RateLimit) (ip : String) (times : List Int) : List Int :=
  ((times.zip (decisions rateLimit ip times)).filter fun r => r.2.isAllowed).map Prod.fst

/-- The number of allowed requests that were counted in the window started at
`start`. -/
def allowedInWindow (rateLimit : RateLimit) (ip : String) (times : List Int) (start : Int) :
    Nat :=
  ((serve rateLimit ip times).filter fun r =>
    r.1.isAllowed && (r.2.map Entry.startTime == some start)).length

/-! ## The route `POST /parse` -/

/-- A JavaScript value, as far as the route tells values apart.  Numbers are
the integers below `2 ^ 53` in absolute value, which JavaScript holds exactly
and prints with all their digits; `object` is a plain object. -/
inductive JsValue
  | undefined
  | null
  | bool (b : Bool)
  | number (n : Int)
  | string (s : JsString)
  | object
  deriving DecidableEq, Repr

/-- The conversion to boolean that `!`, `||` and `? :` apply. -/
def JsValue.truthy : JsValue → Bool
  | JsValue.undefined => false
  | JsValue.null => false
  | JsValue.bool b => b
  | JsValue.number n => n != 0
  | JsValue.string s => !s.isEmpty
  | JsValue.object => true

/-- The operator `||`. -/
def JsValue.or (a b : JsValue) : JsValue := if a.truthy then a else b

/-- The conversion to string that a template literal applies.  For a number
it is the decimal notation, which is what JavaScript prints for the integers
below `2 ^ 53` in absolute value that `JsValue.number` stands for. -/
def JsValue.toJsString : JsValue → JsString
  | JsValue.undefined => "undefined".toList
  | JsValue.null => "null".toList
  | JsValue.bool b => if b then "true".toList else "false".toList
  | JsValue.number n => (toString n).toList
  | JsValue.string s => s
  | JsValue.object => "[object Object]".toList

/-- The two fields the route reads from `req.body`; an absent field is
`undefined`. -/
structure ParseBody where
  rawText : JsValue
  isImage : JsValue
  deriving DecidableEq, Repr

/-- The constant `systemPrompt` of the route. -/
def systemPrompt (isImage : JsValue) : JsString :=
  if isImage.truthy then
    "You are a state-of-the-art Vision-based Resume Parser. You are analyzing text extracted via OCR from a resume image/PDF. Your job is to reconstruct the logical structure and hierarchy of the document. Return valid JSON only following the requested schema.".toList
  else
    "You are a Startup-Grade Resume Parser. You convert messy raw text into highly structured JSON for a career optimization engine. Your parsing logic simulates how Workday and Greenhouse extract entities from plain text. Return valid JSON only.".toList

/-- The part of the template literal `prompt` after the interpolated text. -/
def promptSchema : JsString :=
  "\n\n    REQUIRED JSON SCHEMA:\n    \x7b\n      \"personalInfo\": \x7b \n        \"fullName\": \"string\", \n        \"email\": \"string\", \n        \"phone\": \"string\", \n        \"location\": \"string\", \n        \"linkedin\": \"string\", \n        \"portfolio\": \"string\", \n        \"summary\": \"string\",\n        \"photoUrl\": \"string\"\n      \x7d,\n      \"experience\": [\n        \x7b \n          \"id\": \"string\",\n          \"title\": \"string\",\n          \"company\": \"string\", \n          \"location\": \"string\", \n          \"startDate\": \"string\", \n          \"endDate\": \"string\", \n          \"current\": \"boolean\",\n          \"description\": \"string (full bullet points separated by newlines)\" \n        \x7d\n      ],\n      \"education\": [\n        \x7b \n          \"id\": \"string\",\n          \"degree\": \"string\",\n          \"school\": \"string\", \n          \"location\": \"string\", \n          \"graduationDate\": \"string\",\n          \"gpa\": \"string\"\n        \x7d\n      ],\n      \"skills\": \x7b\n        \"technical\": [\"string\"],\n        \"languages\": [\"string\"],\n        \"certifications\": [\"string\"]\n      \x7d,\n      \"hobbies\": [\"string\"],\n      \"codingProfiles\": \x7b\n        \"github\": \"string\",\n        \"leetcode\": \"string\",\n        \"hackerrank\": \"string\",\n        \"codeforces\": \"string\",\n        \"kaggle\": \"string\",\n        \"codechef\": \"string\"\n      \x7d\n    \x7d\n\n    Return ONLY the raw JSON object.".toList

/-- The constant `prompt` of the route. -/
def prompt (rawText isImage : JsValue) : JsString :=
  "Convert this ".toList
    ++ (if isImage.truthy then "OCR-extracted image".toList else "raw text".toList)
    ++ " resume into a high-fidelity ResumeData JSON structure. \n    \n    RAW INPUT:\n    ".toList
    ++ rawText.toJsString ++ promptSchema

/-- A message of the chat request. -/
structure ChatMessage where
  role : String
  content : JsString
  deriving DecidableEq, Repr

/-- The argument of `groq.chat.completions.create`. -/
structure ChatRequest where
  messages : List ChatMessage
  model : String
  temperature : ℚ
  responseFormat : String
  deriving DecidableEq

/-- The request the route sends to the completion service. -/
def chatRequest (body : ParseBody) : ChatRequest where
  messages := [⟨"system", systemPrompt body.isImage⟩, ⟨"user", prompt body.rawText body.isImage⟩]
  model := "llama-3.3-70b-versatile"
  temperature := 1 / 10
  responseFormat := "json_object"

/-- An error value that is thrown: the three fields `errorHandler` reads. -/
structure JsError where
  status : JsValue
  type : JsValue
  message : JsValue
  deriving DecidableEq, Repr

/-- The outcome of the awaited call of the completion service: it throws, or
it gives a completion, of which the route reads
`choices[0]?.message?.content`. -/
inductive Completion
  | rejected (err : JsError)
  | resolved (content : JsValue)
  deriving DecidableEq, Repr

/-- The `TypeError` of the call `response.trim()` on a value that is not a
string: it has a message and neither `status` nor `type`. -/
def trimTypeError (content : JsValue) : JsError where
  status := JsValue.undefined
  type := JsValue.undefined
  message :=
    match content with
    | JsValue.undefined =>
      JsValue.string "Cannot read properties of undefined (reading 'trim')".toList
    | JsValue.null => JsValue.string "Cannot read properties of null (reading 'trim')".toList
    | _ => JsValue.string "response.trim is not a function".toList

/-- The body of a response: the value decoded by `JSON.parse`, an object
literal with its fields in order, the HTML error page that the final handler
of Express writes when an error handler throws, or no body at all. -/
inductive Body (J : Type)
  | parsed (value : J)
  | fields (kv : List (String × JsValue))
  | html
  | empty

/-- An HTTP response: status code and JSON body. -/
structure Response (J : Type) where
  status : JsValue
  body : Body J

/-- What a handler does at its end: it sends a response or calls
`next(error)`. -/
inductive Handled (J : Type)
  | response (r : Response J)
  | next (err : JsError)

/-- The outcome of the route: what it did at its end and the requests it
sent to the completion service. -/
structure RouteOutcome (J : Type) where
  handled : Handled J
  requests : List ChatRequest

/-- The handler of `router.post("/parse")` in `parsing.js`.  The built-in
`JSON.parse` is the parameter `jsonParse` (the decoded value or the message of
the `SyntaxError`), the completion service is the parameter `groq`. -/
def parseRoute {J : Type} (jsonParse : JsString → Except JsString J)
    (groq : ChatRequest → Completion) (body : ParseBody) : RouteOutcome J :=
  if !body.rawText.truthy then
    ⟨Handled.response ⟨JsValue.number 400,
      Body.fields [("error", JsValue.string "Missing raw text".toList)]⟩, []⟩
  else
    let request := chatRequest body
    match groq request with
    | Completion.rejected err => ⟨Handled.next err, [request]⟩
    | Completion.resolved (JsValue.string content) =>
      let cleaned := cleanJsonResponse content
      match jsonParse cleaned with
      | Except.ok parsedData =>
        ⟨Handled.response ⟨JsValue.number 200, Body.parsed parsedData⟩, [request]⟩
      | Except.error message =>
        ⟨Handled.response ⟨JsValue.number 500, Body.fields
          [("error", JsValue.string "Failed to parse AI response as JSON".toList),
           ("details", JsValue.string message),
           ("rawContent", JsValue.string cleaned)]⟩, [request]⟩
    | Completion.resolved content => ⟨Handled.next (trimTypeError content), [request]⟩

/-- The status codes that `res.status(...).json(...)` accepts: the integers
from 100 to 999.  For any other value the call throws. -/
def validStatus : JsValue → Bool
  | JsValue.number n => decide (100 ≤ n) && decide (n ≤ 999)
  | _ => false

/-- The status codes whose response goes out without a body, whatever is
handed to `res.json`: the informational ones, 204, 205 and 304. -/
def bodylessStatus : JsValue → Bool
  | JsValue.number n =>
    (decide (100 ≤ n) && decide (n ≤ 199)) || n == 204 || n == 205 || n == 304
  | _ => false

/-- The status codes of an HTTP error: the integers from 400 to 599. -/
def errorStatus : JsValue → Bool
  | JsValue.number n => decide (400 ≤ n) && decide (n ≤ 599)
  | _ => false

/-- The response of the final handler of Express when an error handler
throws: the status 500 and an HTML page, no JSON body. -/
def expressErrorPage {J : Type} : Response J where
  status := JsValue.number 500
  body := Body.html

/-- The function `errorHandler` of `index.js`; `timestamp` is the value of
`new Date().toISOString()`.  The value `err.status || 500` goes to
`res.status` unchecked: when it is not a valid status code the call throws
inside `errorHandler`, and Express answers with its own error page; when it
is a status code without a body, the object handed to `res.json` is not
sent. -/
def errorHandler {J : Type} (err : JsError) (timestamp : JsString) : Response J :=
  let status := err.status.or (JsValue.number 500)
  if validStatus status then
    if bodylessStatus status then { status := status, body := Body.empty }
    else
      { status := status
        body := Body.fields
          [("error", err.message.or (JsValue.string "An unexpected error occurred".toList)),
           ("type", err.type.or (JsValue.string "INTERNAL_ERROR".toList)),
           ("timestamp", JsValue.string timestamp)] }
  else expressErrorPage

/-- The JSON envelope that `errorHandler` sends when its status is valid and
has a body. -/
def errorEnvelope {J : Type} (err : JsError) (timestamp : JsString) : Response J where
  status := err.status.or (JsValue.number 500)
  body := Body.fields
    [("error", err.message.or (JsValue.string "An unexpected error occurred".toList)),
     ("type", err.type.or (JsValue.string "INTERNAL_ERROR".toList)),
     ("timestamp", JsValue.string timestamp)]

/-- The response 429 of `securityMiddleware`. -/
def rateLimitResponse {J : Type} (retryAfter : Int) : Response J where
  status := JsValue.number 429
  body := Body.fields
    [("error", JsValue.string "Rate limit exceeded".toList),
     ("retryAfter", JsValue.number retryAfter)]

/-- The middleware chain for a request `POST /parse` with a JSON body:
`securityMiddleware`, then the route, then `errorHandler` for an error passed
to `next`.  The result is the table afterwards, the response and the requests
sent to the completion service. -/
def postParse {J : Type} (jsonParse : JsString → Except JsString J)
    (groq : ChatRequest → Completion) (rateLimit : RateLimit) (ip : String) (now : Int)
    (timestamp : JsString) (body : ParseBody) : RateLimit × Response J × List ChatRequest :=
  match securityMiddleware rateLimit ip now with
  | (rateLimit, Decision.denied r) => (rateLimit, rateLimitResponse r, [])
  | (rateLimit, Decision.allowed) =>
    match parseRoute jsonParse groq body with
    | ⟨Handled.response r, requests⟩ => (rateLimit, r, requests)
    | ⟨Handled.next err, requests⟩ => (rateLimit, errorHandler err timestamp, requests)


/-! ## Predicates used in the statements -/

/-- None of the four container characters occurs in `s`. -/
def NoContainerChar (s : JsString) : Prop :=
  '{' ∉ s ∧ '}' ∉ s ∧ '[' ∉ s ∧ ']' ∉ s

instance (s : JsString) : Decidable (NoContainerChar s) := by
  unfold NoContainerChar; infer_instance

/-- The text `t` is the object text `{ m }` between a prefix and a suffix
that hold no container character. -/
def Wrapped (m t : JsString) : Prop :=
  ∃ p q : JsString, t = p ++ '{' :: (m ++ '}' :: q) ∧ NoContainerChar p ∧ NoContainerChar q

/-- The characters of `t` at the positions `i` through `j`, both included;
empty when `j < i`. -/
def sliceInclusive (t : JsString) (i j : Int) : JsString :=
  (t.drop i.toNat).take (j.toNat + 1 - i.toNat)

/-- The number of requests the window started at `start` can still allow,
seen from the client's entry: the rest of the threshold in the current
window, the whole threshold for a window still to come, nothing for a window
that is over. -/
def windowBudget (slot : Option Entry) (start : Int) : Nat :=
  match slot with
  | none => MAX_REQUESTS
  | some e =>
    if e.startTime = start then MAX_REQUESTS - e.count
    else if e.startTime < start then MAX_REQUESTS
    else 0

/-- A stand-in for `JSON.parse` that decodes one document, the object with the
member `personalInfo` holding the member `fullName`, and rejects any other
text. -/
def parseJohnDoe (text : JsString) : Except JsString (List (String × List (String × String))) :=
  if text = "\x7b\"personalInfo\":\x7b\"fullName\":\"John Doe\"\x7d\x7d".toList then
    Except.ok [("personalInfo", [("fullName", "John Doe")])]
  else Except.error "Unexpected token".toList

/-- The number of allowed requests of one client with a time between `lo` and
`hi`, both included. -/
def allowedBetween (rateLimit : RateLimit) (ip : String) (times : List Int) (lo hi : Int) :
    Nat :=
  ((allowedTimes rateLimit ip times).filter fun t => decide (lo ≤ t ∧ t ≤ hi)).length

/-- The number of requests that can still be allowed with a time between `a`
and `a + RATE_LIMIT_WINDOW`, seen from the client's entry, when the times of
the requests do not decrease: a window started at `a` or later is the last one
to reach into the interval; a window started less than a window length before
`a` is followed by at most one more; before that, the interval meets the end
of one window and the beginning of the next. -/
def slidingBudget (slot : Option Entry) (a : Int) : Nat :=
  match slot with
  | none => 2 * MAX_REQUESTS - 1
  | some e =>
    if a ≤ e.startTime then MAX_REQUESTS - e.count
    else if a - RATE_LIMIT_WINDOW ≤ e.startTime then (MAX_REQUESTS - e.count) + MAX_REQUESTS
    else 2 * MAX_REQUESTS - 1

/-! ## Definitions for the claims on the route -/

/-- The system prompt for text obtained by OCR from an image or a PDF. -/
def visionSystemPrompt : JsString :=
  "You are a state-of-the-art Vision-based Resume Parser. You are analyzing text extracted via OCR from a resume image/PDF. Your job is to reconstruct the logical structure and hierarchy of the document. Return valid JSON only following the requested schema.".toList

/-- The system prompt for raw text. -/
def textSystemPrompt : JsString :=
  "You are a Startup-Grade Resume Parser. You convert messy raw text into highly structured JSON for a career optimization engine. Your parsing logic simulates how Workday and Greenhouse extract entities from plain text. Return valid JSON only.".toList

/-- The response 400 of the route for a missing `rawText`. -/
def missingRawTextResponse {J : Type} : Response J where
  status := JsValue.number 400
  body := Body.fields [("error", JsValue.string "Missing raw text".toList)]

/-- The response 500 of the route for a model response that `JSON.parse`
rejects. -/
def parseFailureResponse {J : Type} (message cleaned : JsString) : Response J where
  status := JsValue.number 500
  body := Body.fields
    [("error", JsValue.string "Failed to parse AI response as JSON".toList),
     ("details", JsValue.string message),
     ("rawContent", JsValue.string cleaned)]

/-- The names of the fields of a body that is an object literal. -/
def Body.fieldNames {J : Type} : Body J → List String
  | Body.parsed _ => []
  | Body.fields kv => kv.map Prod.fst
  | Body.html => []
  | Body.empty => []

/-- The value of a field of a body that is an object literal. -/
def Body.field {J : Type} : Body J → String → Option JsValue
  | Body.parsed _, _ => none
  | Body.fields kv, name => (kv.find? fun p => p.1 == name).map Prod.snd
  | Body.html, _ => none
  | Body.empty, _ => none

/-! ## Lemmas on the normaliser -/

theorem NoContainerChar.mono {a b : JsString} (h : a ⊆ b) (hb : NoContainerChar b) :
    NoContainerChar a :=
  ⟨fun x => hb.1 (h x), fun x => hb.2.1 (h x), fun x => hb.2.2.1 (h x), fun x => hb.2.2.2 (h x)⟩

theorem dropWhile_append_cons_neg {α : Type} (P : α → Bool) (p r : List α) (c : α)
    (hc : P c = false) : (p ++ c :: r).dropWhile P = p.dropWhile P ++ c :: r := by
  induction p with
  | nil => simp [List.dropWhile_cons, hc]
  | cons a p ih =>
    by_cases ha : P a = true
    · simp [List.dropWhile_cons, ha, ih]
    · simp [List.dropWhile_cons, ha]

theorem rdropWhile_append_cons_neg {α : Type} (P : α → Bool) (l q : List α) (c : α)
    (hc : P c = false) : (l ++ c :: q).rdropWhile P = l ++ c :: q.rdropWhile P := by
  unfold List.rdropWhile
  rw [List.reverse_append, List.reverse_cons, List.append_assoc, List.singleton_append,
    dropWhile_append_cons_neg P _ _ c hc]
  simp

theorem wrapped_dropWhile {m t : JsString} (P : Char → Bool) (hP : P '{' = false)
    (h : Wrapped m t) : Wrapped m (t.dropWhile P) := by
  obtain ⟨p, q, rfl, hp, hq⟩ := h
  exact ⟨p.dropWhile P, q, dropWhile_append_cons_neg P p _ _ hP,
    hp.mono (List.dropWhile_suffix P).subset, hq⟩

theorem wrapped_rdropWhile {m t : JsString} (P : Char → Bool) (hP : P '}' = false)
    (h : Wrapped m t) : Wrapped m (t.rdropWhile P) := by
  obtain ⟨p, q, rfl, hp, hq⟩ := h
  refine ⟨p, q.rdropWhile P, ?_, hp, hq.mono (List.rdropWhile_prefix P q).subset⟩
  have := rdropWhile_append_cons_neg P (p ++ '{' :: m) q '}' hP
  simpa [List.append_assoc] using this

theorem wrapped_drop_opener {m t pre : JsString} (hpre : '{' ∉ pre) (hpt : pre <+: t)
    (h : Wrapped m t) : Wrapped m (t.drop pre.length) := by
  obtain ⟨p, q, rfl, hp, hq⟩ := h
  have hpp : pre <+: p := by
    rcases List.prefix_or_prefix_of_prefix hpt (List.prefix_append p _) with h1 | h1
    · exact h1
    · obtain ⟨x, rfl⟩ := h1
      rw [List.prefix_append_right_inj] at hpt
      cases x with
      | nil => simp
      | cons a x =>
        have ha : a = '{' := by
          obtain ⟨y, hy⟩ := hpt
          simp at hy
          exact hy.1
        exact absurd (by simp [ha]) hpre
  obtain ⟨p', rfl⟩ := hpp
  refine ⟨p', q, ?_, hp.mono (List.subset_append_right _ _), hq⟩
  rw [List.append_assoc, List.drop_left]

theorem wrapped_take_closer {m t suf : JsString} (hsuf : '}' ∉ suf) (hst : suf <:+ t)
    (h : Wrapped m t) : Wrapped m (t.take (t.length - suf.length)) := by
  obtain ⟨p, q, rfl, hp, hq⟩ := h
  have hsq : suf <:+ q := by
    have h1 : suf.reverse <+: q.reverse ++ '}' :: (m.reverse ++ '{' :: p.reverse) := by
      have := List.reverse_prefix.2 hst
      simpa [List.append_assoc] using this
    rcases List.prefix_or_prefix_of_prefix h1 (List.prefix_append q.reverse _) with h2 | h2
    · exact List.reverse_prefix.1 h2
    · obtain ⟨x, hx⟩ := h2
      rw [← hx, List.prefix_append_right_inj] at h1
      cases x with
      | nil =>
        have : suf.reverse = q.reverse := by simpa using hx.symm
        rw [List.reverse_inj] at this
        rw [this]
      | cons a x =>
        have ha : a = '}' := by
          obtain ⟨y, hy⟩ := h1
          simp at hy
          exact hy.1
        have : '}' ∈ suf.reverse := by rw [← hx, ha]; simp
        exact absurd (List.mem_reverse.1 this) hsuf
  obtain ⟨q', rfl⟩ := hsq
  refine ⟨p, q', ?_, hp, hq.mono (List.subset_append_left _ _)⟩
  have e : p ++ '{' :: (m ++ '}' :: (q' ++ suf)) = (p ++ '{' :: (m ++ '}' :: q')) ++ suf := by
    simp [List.append_assoc]
  rw [e, List.length_append, Nat.add_sub_cancel, List.take_left]

theorem isWhiteSpace_lbrace : isWhiteSpace '{' = false := by decide
theorem isWhiteSpace_rbrace : isWhiteSpace '}' = false := by decide
theorem isBacktick_lbrace : isBacktick '{' = false := by decide
theorem isBacktick_rbrace : isBacktick '}' = false := by decide

theorem wrapped_trim {m t : JsString} (h : Wrapped m t) : Wrapped m (trim t) :=
  wrapped_rdropWhile _ isWhiteSpace_rbrace (wrapped_dropWhile _ isWhiteSpace_lbrace h)

theorem wrapped_replaceJsonFenceOpener {m t : JsString} (h : Wrapped m t) :
    Wrapped m (replaceJsonFenceOpener t) := by
  unfold replaceJsonFenceOpener
  split
  · next hs =>
    exact wrapped_dropWhile _ isWhiteSpace_lbrace
      (wrapped_drop_opener (by decide) (List.isPrefixOf_iff_prefix.1 hs) h)
  · exact h

theorem wrapped_replaceFenceOpener {m t : JsString} (h : Wrapped m t) :
    Wrapped m (replaceFenceOpener t) := by
  unfold replaceFenceOpener
  split
  · next hs =>
    exact wrapped_dropWhile _ isWhiteSpace_lbrace
      (wrapped_drop_opener (by decide) (List.isPrefixOf_iff_prefix.1 hs) h)
  · exact h

theorem wrapped_replaceFenceCloser {m t : JsString} (h : Wrapped m t) :
    Wrapped m (replaceFenceCloser t) := by
  unfold replaceFenceCloser
  split
  · next hs =>
    exact wrapped_rdropWhile _ isWhiteSpace_rbrace
      (wrapped_take_closer (by decide) (List.isSuffixOf_iff_suffix.1 hs) h)
  · exact h

theorem wrapped_replaceBackticks {m t : JsString} (h : Wrapped m t) :
    Wrapped m (replaceBackticks t) :=
  wrapped_rdropWhile _ isBacktick_rbrace (wrapped_dropWhile _ isBacktick_lbrace h)

theorem wrapped_stripWrapping {m t : JsString} (h : Wrapped m t) :
    Wrapped m (stripWrapping t) := by
  unfold stripWrapping
  apply wrapped_trim
  apply wrapped_replaceBackticks
  have h1 := wrapped_trim h
  split
  · exact wrapped_replaceFenceCloser (wrapped_replaceJsonFenceOpener h1)
  · split
    · exact wrapped_replaceFenceCloser (wrapped_replaceFenceOpener h1)
    · exact h1

/-! ### The container search -/

theorem indexOf_of_mem {t : JsString} {c : Char} (h : c ∈ t) :
    indexOf t c = (t.indexOf c : Nat) := by simp [indexOf, h]

theorem indexOf_of_not_mem {t : JsString} {c : Char} (h : c ∉ t) : indexOf t c = -1 := by
  simp [indexOf, h]

theorem lastIndexOf_of_mem {t : JsString} {c : Char} (h : c ∈ t) :
    lastIndexOf t c = ((t.length - 1 - t.reverse.indexOf c : Nat) : Int) := by
  simp [lastIndexOf, h]

theorem lastIndexOf_of_not_mem {t : JsString} {c : Char} (h : c ∉ t) :
    lastIndexOf t c = -1 := by
  simp [lastIndexOf, h]

theorem indexOf_ne_neg_one {t : JsString} {c : Char} : indexOf t c ≠ -1 ↔ c ∈ t := by
  by_cases h : c ∈ t
  · simp [indexOf_of_mem h, h]
  · simp [indexOf_of_not_mem h, h]

theorem lastIndexOf_ne_neg_one {t : JsString} {c : Char} : lastIndexOf t c ≠ -1 ↔ c ∈ t := by
  by_cases h : c ∈ t
  · simp [lastIndexOf_of_mem h, h]
  · simp [lastIndexOf_of_not_mem h, h]

theorem substring_of_le (s : JsString) (a b : Nat) (hab : a ≤ b) (hb : b ≤ s.length) :
    substring s (a : Int) (b : Int) = (s.drop a).take (b - a) := by
  unfold substring clampIndex
  simp only [Int.toNat_ofNat]
  have h1 : min a s.length = a := by omega
  have h2 : min b s.length = b := by omega
  rw [h1, h2, Nat.min_eq_left hab, Nat.max_eq_right hab]

theorem lastPos_lt {t : JsString} {c : Char} (h : c ∈ t) :
    t.length - 1 - t.reverse.indexOf c < t.length := by
  have : 0 < t.length := List.length_pos_of_mem h
  omega

theorem extractContainer_array {t : JsString} (h1 : '[' ∈ t)
    (h2 : '{' ∉ t ∨ t.indexOf '[' < t.indexOf '{') (h3 : ']' ∈ t)
    (h4 : t.indexOf '[' ≤ t.length - 1 - t.reverse.indexOf ']') :
    extractContainer t =
      (t.drop (t.indexOf '[')).take (t.length - 1 - t.reverse.indexOf ']' + 1 - t.indexOf '[') := by
  have c1 : indexOf t '[' ≠ -1 ∧ (indexOf t '{' = -1 ∨ indexOf t '[' < indexOf t '{') := by
    refine ⟨indexOf_ne_neg_one.2 h1, ?_⟩
    by_cases hb : '{' ∈ t
    · rcases h2 with h2 | h2
      · exact absurd hb h2
      · right; rw [indexOf_of_mem h1, indexOf_of_mem hb]; exact_mod_cast h2
    · left; exact indexOf_of_not_mem hb
  have c2 : lastIndexOf t ']' ≠ -1 := lastIndexOf_ne_neg_one.2 h3
  unfold extractContainer
  simp only [if_pos c1, if_pos c2]
  rw [indexOf_of_mem h1, lastIndexOf_of_mem h3]
  have := lastPos_lt h3
  exact_mod_cast substring_of_le t _ (t.length - 1 - t.reverse.indexOf ']' + 1) (by omega) (by omega)

theorem extractContainer_object {t : JsString} (h1 : '{' ∈ t)
    (h2 : '[' ∈ t → t.indexOf '{' ≤ t.indexOf '[') (h3 : '}' ∈ t)
    (h4 : t.indexOf '{' ≤ t.length - 1 - t.reverse.indexOf '}') :
    extractContainer t =
      (t.drop (t.indexOf '{')).take (t.length - 1 - t.reverse.indexOf '}' + 1 - t.indexOf '{') := by
  have c1 : ¬ (indexOf t '[' ≠ -1 ∧ (indexOf t '{' = -1 ∨ indexOf t '[' < indexOf t '{')) := by
    rintro ⟨hb, hc⟩
    have hb' := indexOf_ne_neg_one.1 hb
    rcases hc with hc | hc
    · exact indexOf_ne_neg_one.2 h1 hc
    · rw [indexOf_of_mem hb', indexOf_of_mem h1] at hc
      have := h2 hb'
      omega
  have c2 : indexOf t '{' ≠ -1 ∧ lastIndexOf t '}' ≠ -1 :=
    ⟨indexOf_ne_neg_one.2 h1, lastIndexOf_ne_neg_one.2 h3⟩
  unfold extractContainer
  simp only [if_neg c1, if_pos c2]
  rw [indexOf_of_mem h1, lastIndexOf_of_mem h3]
  have := lastPos_lt h3
  exact_mod_cast substring_of_le t _ (t.length - 1 - t.reverse.indexOf '}' + 1) (by omega) (by omega)

theorem extractContainer_none {t : JsString} (h : NoContainerChar t) :
    extractContainer t = t := by
  unfold extractContainer
  simp [indexOf_of_not_mem h.1, indexOf_of_not_mem h.2.2.1]

theorem exists_body {s : JsString} {a b : Char} (hab : a ≠ b) (hb : s.head? = some a)
    (he : s.getLast? = some b) : ∃ m, s = a :: (m ++ [b]) := by
  cases s with
  | nil => simp at hb
  | cons x r =>
    simp only [List.head?_cons, Option.some.injEq] at hb
    subst hb
    rcases List.eq_nil_or_concat r with rfl | ⟨m, y, rfl⟩
    · simp at he; exact absurd he hab
    · refine ⟨m, ?_⟩
      rw [List.concat_eq_append, ← List.cons_append, List.getLast?_concat] at he
      simp only [Option.some.injEq] at he
      rw [he, List.concat_eq_append]

theorem extractContainer_of_wrapped {m t : JsString} (h : Wrapped m t) :
    extractContainer t = '{' :: (m ++ ['}']) := by
  obtain ⟨p, q, rfl, hp, hq⟩ := h
  have hmem : '{' ∈ p ++ '{' :: (m ++ '}' :: q) := by simp
  have hmem2 : '}' ∈ p ++ '{' :: (m ++ '}' :: q) := by simp
  have hi : (p ++ '{' :: (m ++ '}' :: q)).indexOf '{' = p.length := by
    rw [List.indexOf_append_of_not_mem hp.1, List.indexOf_cons_self]; rfl
  have hr : (p ++ '{' :: (m ++ '}' :: q)).reverse.indexOf '}' = q.length := by
    have e : (p ++ '{' :: (m ++ '}' :: q)).reverse
        = q.reverse ++ '}' :: (m.reverse ++ '{' :: p.reverse) := by simp
    rw [e, List.indexOf_append_of_not_mem (by simpa using hq.2.1), List.indexOf_cons_self]
    simp
  have hl : (p ++ '{' :: (m ++ '}' :: q)).length = p.length + m.length + q.length + 2 := by
    simp; omega
  rw [extractContainer_object hmem ?_ hmem2 ?_]
  · rw [hi, hr, hl, List.drop_left]
    have e : p.length + m.length + q.length + 2 - 1 - q.length + 1 - p.length
        = ('{' :: (m ++ ['}'])).length := by simp; omega
    have e2 : '{' :: (m ++ '}' :: q) = ('{' :: (m ++ ['}'])) ++ q := by simp
    rw [e, e2, List.take_left]
  · intro _
    rw [hi, List.indexOf_append_of_not_mem hp.2.2.1]
    omega
  · rw [hi, hr, hl]; omega

theorem cleanJsonResponse_of_wrapped {m t : JsString} (h : Wrapped m t) :
    cleanJsonResponse t = '{' :: (m ++ ['}']) :=
  extractContainer_of_wrapped (wrapped_stripWrapping h)

theorem cleanJsonResponse_prose (p q s : JsString) (hp : NoContainerChar p)
    (hq : NoContainerChar q) (hb : s.head? = some '{') (he : s.getLast? = some '}') :
    cleanJsonResponse (p ++ s ++ q) = s := by
  obtain ⟨m, rfl⟩ := exists_body (by decide) hb he
  exact cleanJsonResponse_of_wrapped ⟨p, q, by simp, hp, hq⟩
/-! ### Texts the wrapping steps leave alone -/

theorem dropWhile_eq_self_of_head {α : Type} {P : α → Bool} {l : List α}
    (h : ∀ a, l.head? = some a → P a = false) : l.dropWhile P = l := by
  cases l with
  | nil => rfl
  | cons a l => exact List.dropWhile_cons_of_neg (by simp [h a rfl])

theorem rdropWhile_eq_self_of_getLast {α : Type} {P : α → Bool} {l : List α}
    (h : ∀ a, l.getLast? = some a → P a = false) : l.rdropWhile P = l := by
  rcases List.eq_nil_or_concat l with rfl | ⟨m, b, rfl⟩
  · simp [List.rdropWhile]
  · rw [List.concat_eq_append]
    exact List.rdropWhile_concat_neg P m b (by simp [h b (by simp)])

theorem head?_dropWhile_neg {α : Type} (P : α → Bool) (l : List α) (a : α)
    (h : (l.dropWhile P).head? = some a) : P a = false := by
  have := List.head?_dropWhile_not P l
  rw [h] at this
  exact this

theorem head?_mono {α : Type} {r z : List α} (hp : r <+: z) (a : α)
    (h : r.head? = some a) : z.head? = some a := by
  obtain ⟨x, rfl⟩ := hp
  cases r with
  | nil => simp at h
  | cons b r => simpa using h

theorem head?_trim_neg (s : JsString) (a : Char) (h : (trim s).head? = some a) :
    isWhiteSpace a = false :=
  head?_dropWhile_neg isWhiteSpace s a
    (head?_mono (List.rdropWhile_prefix isWhiteSpace _) a h)

theorem trim_trim (s : JsString) : trim (trim s) = trim s := by
  have h1 : (trim s).dropWhile isWhiteSpace = trim s :=
    dropWhile_eq_self_of_head (head?_trim_neg s)
  show ((trim s).dropWhile isWhiteSpace).rdropWhile isWhiteSpace = trim s
  rw [h1]
  exact List.rdropWhile_idempotent isWhiteSpace _

theorem startsWith_cons_head {y r : JsString} {c : Char} (h : startsWith y (c :: r) = true) :
    y.head? = some c := by
  cases y with
  | nil => simp [startsWith, List.isPrefixOf] at h
  | cons a y =>
    simp [startsWith, List.isPrefixOf] at h
    simp [h.1]

theorem stripWrapping_eq_trim (text : JsString) (h1 : (trim text).head? ≠ some backtick)
    (h2 : (trim text).getLast? ≠ some backtick) : stripWrapping text = trim text := by
  have f1 : startsWith (trim text) jsonFence = false := by
    cases hs : startsWith (trim text) jsonFence
    · rfl
    · exact absurd (startsWith_cons_head (r := "``json".toList) hs) h1
  have f2 : startsWith (trim text) fence = false := by
    cases hs : startsWith (trim text) fence
    · rfl
    · exact absurd (startsWith_cons_head (r := "``".toList) hs) h1
  have f3 : replaceBackticks (trim text) = trim text := by
    unfold replaceBackticks
    have e : (trim text).dropWhile isBacktick = trim text := by
      apply dropWhile_eq_self_of_head
      intro a ha
      cases hb : isBacktick a
      · rfl
      · exact absurd (by rw [ha]; simpa [isBacktick] using hb) h1
    rw [e]
    apply rdropWhile_eq_self_of_getLast
    intro a ha
    cases hb : isBacktick a
    · rfl
    · exact absurd (by rw [ha]; simpa [isBacktick] using hb) h2
  unfold stripWrapping
  simp only [f1, f2, Bool.false_eq_true, if_false, f3, trim_trim]

/-! ### The normaliser only removes text -/

theorem trim_contiguous (s : JsString) : trim s <:+: s :=
  (List.rdropWhile_prefix _ _).isInfix.trans (List.dropWhile_suffix _).isInfix

theorem replaceJsonFenceOpener_contiguous (s : JsString) : replaceJsonFenceOpener s <:+: s := by
  unfold replaceJsonFenceOpener
  split
  · exact (List.dropWhile_suffix _).isInfix.trans (List.drop_suffix _ _).isInfix
  · exact List.infix_refl _

theorem replaceFenceOpener_contiguous (s : JsString) : replaceFenceOpener s <:+: s := by
  unfold replaceFenceOpener
  split
  · exact (List.dropWhile_suffix _).isInfix.trans (List.drop_suffix _ _).isInfix
  · exact List.infix_refl _

theorem replaceFenceCloser_contiguous (s : JsString) : replaceFenceCloser s <:+: s := by
  unfold replaceFenceCloser
  split
  · exact (List.rdropWhile_prefix _ _).isInfix.trans (List.take_prefix _ _).isInfix
  · exact List.infix_refl _

theorem replaceBackticks_contiguous (s : JsString) : replaceBackticks s <:+: s :=
  (List.rdropWhile_prefix _ _).isInfix.trans (List.dropWhile_suffix _).isInfix

theorem stripWrapping_contiguous (s : JsString) : stripWrapping s <:+: s := by
  unfold stripWrapping
  refine (trim_contiguous _).trans ((replaceBackticks_contiguous _).trans ?_)
  split
  · exact (replaceFenceCloser_contiguous _).trans ((replaceJsonFenceOpener_contiguous _).trans (trim_contiguous s))
  · split
    · exact (replaceFenceCloser_contiguous _).trans ((replaceFenceOpener_contiguous _).trans (trim_contiguous s))
    · exact trim_contiguous s

theorem cleanJsonResponse_none {text : JsString} (h : NoContainerChar text) :
    cleanJsonResponse text = stripWrapping text :=
  extractContainer_none (h.mono (stripWrapping_contiguous text).subset)
/-! ### The array slice -/

theorem getElem?_firstPos {t : JsString} {c : Char} (h : c ∈ t) :
    t[t.indexOf c]? = some c := by
  have hl : t.indexOf c < t.length := List.indexOf_lt_length.2 h
  rw [List.getElem?_eq_getElem hl, List.getElem_indexOf hl]

theorem getElem?_lastPos {t : JsString} {c : Char} (h : c ∈ t) :
    t[t.length - 1 - t.reverse.indexOf c]? = some c := by
  have hr : c ∈ t.reverse := List.mem_reverse.2 h
  have hl : t.reverse.indexOf c < t.reverse.length := List.indexOf_lt_length.2 hr
  have h1 := getElem?_firstPos hr
  rw [List.getElem?_reverse (by simpa using hl)] at h1
  exact h1

theorem sliceInclusive_ofNat (t : JsString) (i j : Nat) :
    sliceInclusive t (i : Int) (j : Int) = (t.drop i).take (j + 1 - i) := by
  simp [sliceInclusive]

theorem head?_slice (t : JsString) (i j : Nat) (hij : i ≤ j) :
    ((t.drop i).take (j + 1 - i)).head? = t[i]? := by
  rw [List.head?_take, if_neg (by omega), List.head?_drop]

theorem getLast?_slice (t : JsString) (i j : Nat) (hij : i ≤ j) (hj : j < t.length) :
    ((t.drop i).take (j + 1 - i)).getLast? = t[j]? := by
  rw [List.getLast?_take, if_neg (by omega), List.getElem?_drop]
  have e : i + (j + 1 - i - 1) = j := by omega
  rw [e, List.getElem?_eq_getElem hj]
  rfl

theorem extractContainer_array_slice (t : JsString) (h1 : indexOf t '[' ≠ -1)
    (h2 : indexOf t '{' = -1 ∨ indexOf t '[' < indexOf t '{')
    (h3 : lastIndexOf t ']' ≠ -1) (h4 : indexOf t '[' < lastIndexOf t ']') :
    extractContainer t = sliceInclusive t (indexOf t '[') (lastIndexOf t ']') ∧
    (extractContainer t).head? = some '[' ∧ (extractContainer t).getLast? = some ']' := by
  have m1 := indexOf_ne_neg_one.1 h1
  have m3 := lastIndexOf_ne_neg_one.1 h3
  have h2' : '{' ∉ t ∨ t.indexOf '[' < t.indexOf '{' := by
    by_cases hb : '{' ∈ t
    · right
      rcases h2 with h2 | h2
      · exact absurd h2 (indexOf_ne_neg_one.2 hb)
      · rw [indexOf_of_mem m1, indexOf_of_mem hb] at h2
        exact_mod_cast h2
    · exact Or.inl hb
  rw [indexOf_of_mem m1, lastIndexOf_of_mem m3] at h4
  have h4' : t.indexOf '[' ≤ t.length - 1 - t.reverse.indexOf ']' := by omega
  have e := extractContainer_array m1 h2' m3 h4'
  rw [e, indexOf_of_mem m1, lastIndexOf_of_mem m3, sliceInclusive_ofNat]
  refine ⟨rfl, ?_, ?_⟩
  · rw [head?_slice _ _ _ h4', getElem?_firstPos m1]
  · rw [getLast?_slice _ _ _ h4' (lastPos_lt m3), getElem?_lastPos m3]
theorem extractContainer_array_text (m : JsString) :
    extractContainer ('[' :: (m ++ [']'])) = '[' :: (m ++ [']']) := by
  have hi : ('[' :: (m ++ [']'])).indexOf '[' = 0 := List.indexOf_cons_self _ _
  have hr : ('[' :: (m ++ [']'])).reverse.indexOf ']' = 0 := by
    have e : ('[' :: (m ++ [']'])).reverse = ']' :: (m.reverse ++ ['[']) := by simp
    rw [e, List.indexOf_cons_self]
  rw [extractContainer_array (by simp) ?_ (by simp) (by rw [hi]; omega), hi, hr]
  · simp
  · by_cases hb : '{' ∈ '[' :: (m ++ [']'])
    · right
      rw [hi, List.indexOf_cons_ne _ (by decide)]
      omega
    · exact Or.inl hb
/-! ## Lemmas on the rate limiter -/

theorem set_self (rl : RateLimit) (ip : String) (e : Entry) : (rl.set ip e) ip = some e := by
  simp [RateLimit.set]

theorem lookup_set_self (rl : RateLimit) (ip : String) (e : Entry) :
    (rl.set ip e).lookup ip = Slot.entry e := by
  simp [RateLimit.lookup, set_self]

theorem lookup_of_some {rl : RateLimit} {ip : String} {e : Entry} (h : rl ip = some e) :
    rl.lookup ip = Slot.entry e := by
  simp [RateLimit.lookup, h]

theorem lookup_entry_iff {rl : RateLimit} {ip : String} {e : Entry} :
    rl.lookup ip = Slot.entry e ↔ rl ip = some e := by
  constructor
  · intro h
    unfold RateLimit.lookup at h
    split at h
    · next e' he => rw [he]; simpa using h
    · split at h <;> simp at h
  · exact lookup_of_some

theorem securityMiddleware_missing {rl : RateLimit} {ip : String} (now : Int)
    (h : rl.lookup ip = Slot.missing) :
    securityMiddleware rl ip now = (rl.set ip ⟨1, now⟩, Decision.allowed) := by
  simp [securityMiddleware, updateRateLimit, checkRateLimit, h, lookup_set_self, MAX_REQUESTS]

theorem securityMiddleware_expired {rl : RateLimit} {ip : String} {e : Entry} (now : Int)
    (h : rl ip = some e) (hx : now - e.startTime > RATE_LIMIT_WINDOW) :
    securityMiddleware rl ip now = (rl.set ip ⟨1, now⟩, Decision.allowed) := by
  simp [securityMiddleware, updateRateLimit, checkRateLimit, lookup_of_some h, hx,
    lookup_set_self, MAX_REQUESTS]

theorem securityMiddleware_within {rl : RateLimit} {ip : String} {e : Entry} (now : Int)
    (h : rl ip = some e) (hx : ¬ now - e.startTime > RATE_LIMIT_WINDOW) :
    securityMiddleware rl ip now = (rl.set ip ⟨e.count + 1, e.startTime⟩,
      if e.count + 1 > MAX_REQUESTS then
        Decision.denied (retryAfter now ⟨e.count + 1, e.startTime⟩)
      else Decision.allowed) := by
  simp [securityMiddleware, updateRateLimit, checkRateLimit, lookup_of_some h, hx,
    lookup_set_self]

theorem securityMiddleware_inherited {rl : RateLimit} {ip : String} (now : Int)
    (h : rl.lookup ip = Slot.inherited) :
    securityMiddleware rl ip now = (rl, Decision.allowed) := by
  simp [securityMiddleware, updateRateLimit, checkRateLimit, h]

theorem serve_length (rl : RateLimit) (ip : String) (times : List Int) :
    (serve rl ip times).length = times.length := by
  induction times generalizing rl with
  | nil => rfl
  | cons t ts ih => simp [serve, ih]

theorem serve_within (ip : String) (t0 : Int) (ts : List Int) :
    ∀ (rl : RateLimit) (c : Nat), rl ip = some ⟨c, t0⟩ →
      (∀ t ∈ ts, t - t0 ≤ RATE_LIMIT_WINDOW) →
      ∀ (k : Nat) (r : Decision × Option Entry), (serve rl ip ts)[k]? = some r →
        (r.1 = Decision.allowed ↔ c + k + 1 ≤ MAX_REQUESTS) ∧ r.2 = some ⟨c + k + 1, t0⟩ := by
  induction ts with
  | nil => intro rl c _ _ k r h; simp [serve] at h
  | cons t ts ih =>
    intro rl c hrl hts k r h
    have hx : ¬ t - (⟨c, t0⟩ : Entry).startTime > RATE_LIMIT_WINDOW := by
      have := hts t (by simp)
      simpa using this
    have hstep : securityMiddleware rl ip t = (rl.set ip ⟨c + 1, t0⟩,
        if c + 1 > MAX_REQUESTS then Decision.denied (retryAfter t ⟨c + 1, t0⟩)
        else Decision.allowed) := securityMiddleware_within t hrl hx
    cases k with
    | zero =>
      simp only [serve, hstep, List.getElem?_cons_zero, Option.some.injEq] at h
      subst h
      refine ⟨?_, set_self _ _ _⟩
      by_cases hc : c + 1 > MAX_REQUESTS
      · rw [if_pos hc]
        exact ⟨fun h => Decision.noConfusion h, fun h => absurd h (by omega)⟩
      · rw [if_neg hc]
        exact ⟨fun _ => (by omega), fun _ => rfl⟩
    | succ k =>
      simp only [serve, hstep, List.getElem?_cons_succ] at h
      have := ih (rl.set ip ⟨c + 1, t0⟩) (c + 1) (set_self _ _ _)
        (fun t ht => hts t (by simp [ht])) k r h
      have e : c + 1 + k + 1 = c + (k + 1) + 1 := by omega
      rw [e] at this
      exact this
theorem allowedInWindow_nil (rl : RateLimit) (ip : String) (s : Int) :
    allowedInWindow rl ip [] s = 0 := rfl

theorem allowedInWindow_cons (rl : RateLimit) (ip : String) (t : Int) (ts : List Int)
    (s : Int) :
    allowedInWindow rl ip (t :: ts) s =
      (if ((securityMiddleware rl ip t).2.isAllowed &&
          (((securityMiddleware rl ip t).1 ip).map Entry.startTime == some s)) = true
        then 1 else 0)
      + allowedInWindow (securityMiddleware rl ip t).1 ip ts s := by
  unfold allowedInWindow
  simp only [serve, List.filter_cons]
  split <;> simp [Nat.add_comm]

theorem lookup_of_none {rl : RateLimit} {ip : String} (h : rl ip = none) :
    rl.lookup ip = Slot.missing ∨ rl.lookup ip = Slot.inherited := by
  unfold RateLimit.lookup
  rw [h]
  by_cases hk : ip ∈ objectPrototypeKeys
  · right; simp [hk]
  · left; simp [hk]

theorem allowedInWindow_le_budget (ip : String) (s : Int) (times : List Int) :
    ∀ rl : RateLimit, allowedInWindow rl ip times s ≤ windowBudget (rl ip) s := by
  induction times with
  | nil => intro rl; simp [allowedInWindow_nil]
  | cons t ts ih =>
    intro rl
    rw [allowedInWindow_cons]
    cases h : rl ip with
    | none =>
      rcases lookup_of_none h with hl | hl
      · have hstep := securityMiddleware_missing t hl
        have hih := ih (rl.set ip ⟨1, t⟩)
        rw [set_self] at hih
        rw [hstep]
        simp only [set_self, Decision.isAllowed, Option.map_some', Bool.true_and]
        unfold windowBudget at hih ⊢
        simp only [MAX_REQUESTS] at hih ⊢
        by_cases hts : t = s
        · simp [hts] at hih ⊢; omega
        · simp [hts] at hih ⊢
          split at hih <;> omega
      · have hstep := securityMiddleware_inherited t hl
        have hih := ih rl
        rw [hstep]
        simp only [h, Option.map_none']
        rw [h] at hih
        simpa using hih
    | some e =>
      by_cases hx : t - e.startTime > RATE_LIMIT_WINDOW
      · have hstep := securityMiddleware_expired t h hx
        have hih := ih (rl.set ip ⟨1, t⟩)
        rw [set_self] at hih
        rw [hstep]
        simp only [set_self, Decision.isAllowed, Option.map_some', Bool.true_and]
        unfold windowBudget at hih ⊢
        simp only [MAX_REQUESTS, RATE_LIMIT_WINDOW] at hih hx ⊢
        by_cases hts : t = s
        · subst hts
          simp at hih ⊢
          have h1 : ¬ e.startTime = t := by omega
          have h2 : e.startTime < t := by omega
          simp [h1, h2]; omega
        · simp [hts] at hih ⊢
          by_cases h1 : e.startTime = s
          · have h2 : ¬ t < s := by omega
            simp [h1, h2] at hih ⊢
            omega
          · by_cases h2 : e.startTime < s
            · simp [h1, h2]
              split at hih <;> omega
            · have h3 : ¬ t < s := by omega
              simp [h1, h2, h3] at hih ⊢
              exact hih
      · have hstep := securityMiddleware_within t h hx
        have hih := ih (rl.set ip ⟨e.count + 1, e.startTime⟩)
        rw [set_self] at hih
        rw [hstep]
        simp only [set_self, Option.map_some']
        unfold windowBudget at hih ⊢
        simp only [MAX_REQUESTS] at hih ⊢
        by_cases h1 : e.startTime = s
        · simp only [h1, if_true] at hih ⊢
          by_cases hc : e.count + 1 > 100
          · simp [hc, Decision.isAllowed]; omega
          · simp [hc, Decision.isAllowed]; omega
        · have h1' : ¬ (some e.startTime == some s) = true := by simpa using h1
          simp only [h1, if_false] at hih ⊢
          simp only [h1', Bool.and_false, Bool.false_eq_true, if_false, Nat.zero_add]
          exact hih
theorem securityMiddleware_entry_some {rl : RateLimit} {ip : String} (now : Int)
    (h : rl.lookup ip ≠ Slot.inherited) :
    ∃ e, (securityMiddleware rl ip now).1 ip = some e := by
  cases hs : rl ip with
  | none =>
    rcases lookup_of_none hs with hl | hl
    · exact ⟨_, by rw [securityMiddleware_missing now hl]; exact set_self _ _ _⟩
    · exact absurd hl h
  | some e =>
    by_cases hx : now - e.startTime > RATE_LIMIT_WINDOW
    · exact ⟨_, by rw [securityMiddleware_expired now hs hx]; exact set_self _ _ _⟩
    · exact ⟨_, by rw [securityMiddleware_within now hs hx]; exact set_self _ _ _⟩

theorem serve_entry_some (ip : String) (times : List Int) :
    ∀ rl : RateLimit, rl.lookup ip ≠ Slot.inherited →
      ∀ r ∈ serve rl ip times, ∃ e, r.2 = some e := by
  induction times with
  | nil => intro rl _ r hr; simp [serve] at hr
  | cons t ts ih =>
    intro rl h r hr
    obtain ⟨e, he⟩ := securityMiddleware_entry_some t h
    simp only [serve, List.mem_cons] at hr
    rcases hr with rfl | hr
    · exact ⟨e, he⟩
    · exact ih _ (by rw [lookup_of_some he]; simp) r hr

theorem windowBudget_le (slot : Option Entry) (s : Int) : windowBudget slot s ≤ MAX_REQUESTS := by
  unfold windowBudget
  split
  · exact Nat.le_refl _
  · split
    · exact Nat.sub_le _ _
    · split <;> simp

theorem ceilDiv1000_spec (x : Int) : x ≤ 1000 * ceilDiv1000 x := by
  unfold ceilDiv1000
  omega

/-- A retry strictly later than the announced `retryAfter` seconds opens a
new window and is allowed. -/
theorem retry_later_allowed {rl : RateLimit} {ip : String} {e : Entry} (now later : Int)
    (h : rl ip = some e) (hl : now + 1000 * retryAfter now e < later) :
    securityMiddleware rl ip later = (rl.set ip ⟨1, later⟩, Decision.allowed) := by
  apply securityMiddleware_expired later h
  have := ceilDiv1000_spec (RATE_LIMIT_WINDOW - (now - e.startTime))
  unfold retryAfter at hl
  omega

/-- A client key that names a member of `Object.prototype` is never counted:
the lookup finds the inherited member, no entry is created and every request
is allowed. -/
theorem inherited_key_not_counted (rl : RateLimit) (ip : String) (now : Int)
    (h : rl.lookup ip = Slot.inherited) :
    securityMiddleware rl ip now = (rl, Decision.allowed) :=
  securityMiddleware_inherited now h

theorem lookup_constructor : RateLimit.empty.lookup "constructor" = Slot.inherited := by
  decide

theorem ceilDiv1000_eq_ceil (x : Int) : ceilDiv1000 x = ⌈(x : ℚ) / 1000⌉ := by
  unfold ceilDiv1000
  symm
  rw [Int.ceil_eq_iff]
  have h1 : ((-x) / 1000 : Int) * 1000 ≤ -x := Int.ediv_mul_le _ (by norm_num)
  have h2 : -x < ((-x) / 1000 + 1) * 1000 := Int.lt_ediv_add_one_mul_self _ (by norm_num)
  have h1q : (((-x) / 1000 : Int) : ℚ) * 1000 ≤ -(x : ℚ) := by exact_mod_cast h1
  have h2q : -(x : ℚ) < ((((-x) / 1000 : Int) : ℚ) + 1) * 1000 := by exact_mod_cast h2
  push_cast
  constructor
  · rw [lt_div_iff₀ (by norm_num)]; linarith
  · rw [div_le_iff₀ (by norm_num)]; linarith
/-! ### Allowed requests in an interval -/

theorem allowedTimes_cons (rl : RateLimit) (ip : String) (t : Int) (ts : List Int) :
    allowedTimes rl ip (t :: ts) =
      if (securityMiddleware rl ip t).2.isAllowed = true then
        t :: allowedTimes (securityMiddleware rl ip t).1 ip ts
      else allowedTimes (securityMiddleware rl ip t).1 ip ts := by
  unfold allowedTimes decisions
  simp only [serve, List.map_cons, List.zip_cons_cons, List.filter_cons]
  split <;> simp

theorem allowedBetween_cons (rl : RateLimit) (ip : String) (t : Int) (ts : List Int)
    (lo hi : Int) :
    allowedBetween rl ip (t :: ts) lo hi =
      (if (securityMiddleware rl ip t).2.isAllowed = true ∧ lo ≤ t ∧ t ≤ hi then 1 else 0)
      + allowedBetween (securityMiddleware rl ip t).1 ip ts lo hi := by
  unfold allowedBetween
  rw [allowedTimes_cons]
  by_cases hA : (securityMiddleware rl ip t).2.isAllowed = true
  · by_cases hI : lo ≤ t ∧ t ≤ hi
    · simp [hA, hI, List.filter_cons, Nat.add_comm]
    · simp [hA, hI, List.filter_cons]
  · simp [hA]

theorem allowedBetween_eq_zero (ip : String) (lo hi : Int) (times : List Int) :
    ∀ rl : RateLimit, (∀ t ∈ times, hi < t) → allowedBetween rl ip times lo hi = 0 := by
  induction times with
  | nil => intro rl _; rfl
  | cons t ts ih =>
    intro rl h
    rw [allowedBetween_cons, ih _ (fun u hu => h u (by simp [hu]))]
    have : ¬ t ≤ hi := by have := h t (by simp); omega
    simp [this]

theorem isAllowed_allowed : Decision.allowed.isAllowed = true := rfl

theorem isAllowed_denied (r : Int) : (Decision.denied r).isAllowed = false := rfl

theorem allowedBetween_le_budget (ip : String) (a : Int) (times : List Int) :
    times.Sorted (· ≤ ·) → ∀ rl : RateLimit, rl.lookup ip ≠ Slot.inherited →
      allowedBetween rl ip times a (a + RATE_LIMIT_WINDOW) ≤ slidingBudget (rl ip) a := by
  induction times with
  | nil => intro _ rl _; simp [allowedBetween, allowedTimes, decisions, serve]
  | cons t ts ih =>
    intro hs rl hl
    have hsorted : ts.Sorted (· ≤ ·) := hs.of_cons
    have hge : ∀ u ∈ ts, t ≤ u := fun u hu => List.rel_of_sorted_cons hs u hu
    rw [allowedBetween_cons]
    have hnew : ∀ e : Entry, (rl.set ip e).lookup ip ≠ Slot.inherited := by
      intro e; rw [lookup_set_self]; simp
    -- a request that opens a window
    have hopen : securityMiddleware rl ip t = (rl.set ip ⟨1, t⟩, Decision.allowed) →
        (if (securityMiddleware rl ip t).2.isAllowed = true ∧ a ≤ t ∧ t ≤ a + RATE_LIMIT_WINDOW
          then 1 else 0)
        + allowedBetween (securityMiddleware rl ip t).1 ip ts a (a + RATE_LIMIT_WINDOW)
          ≤ if a + RATE_LIMIT_WINDOW < t then 0
            else if a ≤ t then MAX_REQUESTS else 2 * MAX_REQUESTS - 1 := by
      intro hstep
      rw [hstep]
      simp only [isAllowed_allowed, true_and]
      by_cases hlate : a + RATE_LIMIT_WINDOW < t
      · rw [allowedBetween_eq_zero ip _ _ ts _ (fun u hu => by have := hge u hu; omega)]
        split_ifs <;> omega
      · have hih := ih hsorted (rl.set ip ⟨1, t⟩) (hnew _)
        rw [set_self] at hih
        unfold slidingBudget at hih
        simp only [MAX_REQUESTS, RATE_LIMIT_WINDOW] at hih hlate ⊢
        split_ifs at hih ⊢ <;> omega
    cases h : rl ip with
    | none =>
      rcases lookup_of_none h with hm | hm
      · refine (hopen (securityMiddleware_missing t hm)).trans ?_
        unfold slidingBudget
        simp only [MAX_REQUESTS]
        split_ifs <;> omega
      · exact absurd hm hl
    | some e =>
      by_cases hx : t - e.startTime > RATE_LIMIT_WINDOW
      · refine (hopen (securityMiddleware_expired t h hx)).trans ?_
        unfold slidingBudget
        simp only [MAX_REQUESTS, RATE_LIMIT_WINDOW] at hx ⊢
        split_ifs <;> omega
      · have hstep := securityMiddleware_within t h hx
        have hih := ih hsorted (rl.set ip ⟨e.count + 1, e.startTime⟩) (hnew _)
        rw [set_self] at hih
        rw [hstep]
        unfold slidingBudget at hih ⊢
        simp only [MAX_REQUESTS, RATE_LIMIT_WINDOW] at hih hx ⊢
        by_cases hc : e.count + 1 > 100
        · simp only [hc, if_true, isAllowed_denied, Bool.false_eq_true, false_and, if_false]
          split_ifs at hih ⊢ <;> omega
        · simp only [hc, if_false, isAllowed_allowed, true_and]
          split_ifs at hih ⊢ <;> omega

theorem slidingBudget_le {slot : Option Entry} (a : Int)
    (h : ∀ e, slot = some e → 1 ≤ e.count) : slidingBudget slot a ≤ 2 * MAX_REQUESTS - 1 := by
  unfold slidingBudget
  simp only [MAX_REQUESTS]
  split
  · omega
  · next e =>
    have := h e rfl
    split_ifs <;> omega

/-! ## Lemmas on the route -/

theorem substring_contiguous (s : JsString) (a b : Int) : substring s a b <:+: s :=
  (List.take_prefix _ _).isInfix.trans (List.drop_suffix _ _).isInfix

theorem extractContainer_contiguous (t : JsString) : extractContainer t <:+: t := by
  unfold extractContainer
  simp only
  split
  · split
    · exact substring_contiguous _ _ _
    · exact List.infix_refl _
  · split
    · exact substring_contiguous _ _ _
    · exact List.infix_refl _

theorem cleanJsonResponse_contiguous (text : JsString) : cleanJsonResponse text <:+: text :=
  (extractContainer_contiguous _).trans (stripWrapping_contiguous text)

theorem parseRoute_invalid {J : Type} (jsonParse : JsString → Except JsString J)
    (groq : ChatRequest → Completion) {body : ParseBody} (h : body.rawText.truthy = false) :
    parseRoute jsonParse groq body = ⟨Handled.response missingRawTextResponse, []⟩ := by
  simp [parseRoute, h, missingRawTextResponse]

theorem parseRoute_rejected {J : Type} (jsonParse : JsString → Except JsString J)
    {groq : ChatRequest → Completion} {body : ParseBody} {err : JsError}
    (h : body.rawText.truthy = true) (hg : groq (chatRequest body) = Completion.rejected err) :
    parseRoute jsonParse groq body = ⟨Handled.next err, [chatRequest body]⟩ := by
  simp [parseRoute, h, hg]

theorem parseRoute_ok {J : Type} {jsonParse : JsString → Except JsString J}
    {groq : ChatRequest → Completion} {body : ParseBody} {c : JsString} {v : J}
    (h : body.rawText.truthy = true)
    (hg : groq (chatRequest body) = Completion.resolved (JsValue.string c))
    (hp : jsonParse (cleanJsonResponse c) = Except.ok v) :
    parseRoute jsonParse groq body
      = ⟨Handled.response ⟨JsValue.number 200, Body.parsed v⟩, [chatRequest body]⟩ := by
  simp [parseRoute, h, hg, hp]

theorem parseRoute_error {J : Type} {jsonParse : JsString → Except JsString J}
    {groq : ChatRequest → Completion} {body : ParseBody} {c message : JsString}
    (h : body.rawText.truthy = true)
    (hg : groq (chatRequest body) = Completion.resolved (JsValue.string c))
    (hp : jsonParse (cleanJsonResponse c) = Except.error message) :
    parseRoute jsonParse groq body
      = ⟨Handled.response (parseFailureResponse message (cleanJsonResponse c)),
          [chatRequest body]⟩ := by
  simp [parseRoute, h, hg, hp, parseFailureResponse]

theorem parseRoute_not_string {J : Type} (jsonParse : JsString → Except JsString J)
    {groq : ChatRequest → Completion} {body : ParseBody} {content : JsValue}
    (h : body.rawText.truthy = true)
    (hg : groq (chatRequest body) = Completion.resolved content)
    (hc : ∀ s, content ≠ JsValue.string s) :
    parseRoute jsonParse groq body
      = ⟨Handled.next (trimTypeError content), [chatRequest body]⟩ := by
  cases content with
  | string s => exact absurd rfl (hc s)
  | _ => simp [parseRoute, h, hg]

theorem postParse_allowed {J : Type} (jsonParse : JsString → Except JsString J)
    (groq : ChatRequest → Completion) {rl : RateLimit} {ip : String} {now : Int}
    (timestamp : JsString) (body : ParseBody)
    (h : (securityMiddleware rl ip now).2 = Decision.allowed) :
    (postParse jsonParse groq rl ip now timestamp body).2 =
      match (parseRoute jsonParse groq body).handled with
      | Handled.response r => (r, (parseRoute jsonParse groq body).requests)
      | Handled.next err =>
        (errorHandler err timestamp, (parseRoute jsonParse groq body).requests) := by
  have hpair : securityMiddleware rl ip now
      = ((securityMiddleware rl ip now).1, Decision.allowed) := by rw [← h]
  unfold postParse
  rw [hpair]
  simp only
  cases hr : parseRoute jsonParse groq body with
  | mk handled requests =>
    cases handled <;> rfl

theorem postParse_denied {J : Type} (jsonParse : JsString → Except JsString J)
    (groq : ChatRequest → Completion) {rl : RateLimit} {ip : String} {now : Int} {r : Int}
    (timestamp : JsString) (body : ParseBody)
    (h : (securityMiddleware rl ip now).2 = Decision.denied r) :
    (postParse jsonParse groq rl ip now timestamp body).2 = (rateLimitResponse r, []) := by
  have hpair : securityMiddleware rl ip now
      = ((securityMiddleware rl ip now).1, Decision.denied r) := by rw [← h]
  unfold postParse
  rw [hpair]

/-- The outcomes of the completion call, as the route tells them apart. -/
theorem completion_cases (c : Completion) :
    (∃ err, c = Completion.rejected err) ∨ (∃ s, c = Completion.resolved (JsValue.string s)) ∨
    (∃ content, c = Completion.resolved content ∧ ∀ s, content ≠ JsValue.string s) := by
  cases c with
  | rejected err => exact Or.inl ⟨err, rfl⟩
  | resolved content =>
    cases content with
    | string s => exact Or.inr (Or.inl ⟨s, rfl⟩)
    | _ => exact Or.inr (Or.inr ⟨_, rfl, fun s h => by cases h⟩)

/-- The five shapes of the response of the chain. -/
theorem postParse_shape {J : Type} (jsonParse : JsString → Except JsString J)
    (groq : ChatRequest → Completion) (rl : RateLimit) (ip : String) (now : Int)
    (timestamp : JsString) (body : ParseBody) :
    (∃ v, (postParse jsonParse groq rl ip now timestamp body).2.1
        = ⟨JsValue.number 200, Body.parsed v⟩) ∨
    (∃ r, (postParse jsonParse groq rl ip now timestamp body).2.1 = rateLimitResponse r) ∨
    (postParse jsonParse groq rl ip now timestamp body).2.1 = missingRawTextResponse ∨
    (∃ message cleaned, (postParse jsonParse groq rl ip now timestamp body).2.1
        = parseFailureResponse message cleaned) ∨
    (∃ err, (postParse jsonParse groq rl ip now timestamp body).2.1
        = errorHandler err timestamp) := by
  cases hd : (securityMiddleware rl ip now).2 with
  | denied r =>
    rw [postParse_denied jsonParse groq timestamp body hd]
    exact Or.inr (Or.inl ⟨r, rfl⟩)
  | allowed =>
    rw [postParse_allowed jsonParse groq timestamp body hd]
    cases ht : body.rawText.truthy with
    | false =>
      rw [parseRoute_invalid jsonParse groq ht]
      exact Or.inr (Or.inr (Or.inl rfl))
    | true =>
      rcases completion_cases (groq (chatRequest body)) with ⟨err, hg⟩ | ⟨s, hg⟩ | ⟨c, hg, hc⟩
      · rw [parseRoute_rejected jsonParse ht hg]
        exact Or.inr (Or.inr (Or.inr (Or.inr ⟨err, rfl⟩)))
      · cases hp : jsonParse (cleanJsonResponse s) with
        | ok v =>
          rw [parseRoute_ok ht hg hp]
          exact Or.inl ⟨v, rfl⟩
        | error message =>
          rw [parseRoute_error ht hg hp]
          exact Or.inr (Or.inr (Or.inr (Or.inl ⟨message, _, rfl⟩)))
      · rw [parseRoute_not_string jsonParse ht hg hc]
        exact Or.inr (Or.inr (Or.inr (Or.inr ⟨trimTypeError c, rfl⟩)))

theorem truthy_eq_false_iff (v : JsValue) :
    v.truthy = false ↔
      v = JsValue.undefined ∨ v = JsValue.null ∨ v = JsValue.bool false ∨
      v = JsValue.number 0 ∨ v = JsValue.string [] := by
  cases v with
  | undefined => simp [JsValue.truthy]
  | null => simp [JsValue.truthy]
  | bool b => cases b <;> simp [JsValue.truthy]
  | number n => simp [JsValue.truthy]
  | string s => cases s <;> simp [JsValue.truthy]
  | object => simp [JsValue.truthy]

theorem errorHandler_ne_missing {J : Type} (err : JsError) (timestamp : JsString) :
    (errorHandler err timestamp : Response J) ≠ missingRawTextResponse := by
  intro h
  have hb := congrArg (fun r => r.body.fieldNames) h
  by_cases hv : validStatus (err.status.or (JsValue.number 500)) = true
  · by_cases hl : bodylessStatus (err.status.or (JsValue.number 500)) = true
    · simp [errorHandler, hv, hl, missingRawTextResponse, Body.fieldNames] at hb
    · simp [errorHandler, hv, hl, missingRawTextResponse, Body.fieldNames] at hb
  · simp [errorHandler, hv, expressErrorPage, missingRawTextResponse, Body.fieldNames] at hb

theorem postParse_missing_iff {J : Type} (jsonParse : JsString → Except JsString J)
    (groq : ChatRequest → Completion) {rl : RateLimit} {ip : String} {now : Int}
    (timestamp : JsString) (body : ParseBody)
    (h : (securityMiddleware rl ip now).2 = Decision.allowed) :
    (postParse jsonParse groq rl ip now timestamp body).2.1 = missingRawTextResponse ↔
      body.rawText.truthy = false := by
  rw [postParse_allowed jsonParse groq timestamp body h]
  cases ht : body.rawText.truthy with
  | false =>
    rw [parseRoute_invalid jsonParse groq ht]
    simp
  | true =>
    simp only [Bool.true_eq_false, iff_false]
    rcases completion_cases (groq (chatRequest body)) with ⟨err, hg⟩ | ⟨s, hg⟩ | ⟨c, hg, hc⟩
    · rw [parseRoute_rejected jsonParse ht hg]
      exact errorHandler_ne_missing err timestamp
    · cases hp : jsonParse (cleanJsonResponse s) with
      | ok v =>
        rw [parseRoute_ok ht hg hp]
        intro hh
        have := congrArg Response.status hh
        simp [missingRawTextResponse] at this
      | error message =>
        rw [parseRoute_error ht hg hp]
        intro hh
        have := congrArg Response.status hh
        simp [missingRawTextResponse, parseFailureResponse] at this
    · rw [parseRoute_not_string jsonParse ht hg hc]
      exact errorHandler_ne_missing (trimTypeError c) timestamp

theorem postParse_requests_invalid {J : Type} (jsonParse : JsString → Except JsString J)
    (groq : ChatRequest → Completion) {rl : RateLimit} {ip : String} {now : Int}
    (timestamp : JsString) (body : ParseBody)
    (h : (securityMiddleware rl ip now).2 = Decision.allowed)
    (ht : body.rawText.truthy = false) :
    (postParse jsonParse groq rl ip now timestamp body).2.2 = [] := by
  rw [postParse_allowed jsonParse groq timestamp body h, parseRoute_invalid jsonParse groq ht]

/-! ### The error handler and keys found on the prototype -/

theorem errorHandler_of_json {J : Type} (err : JsError) (timestamp : JsString)
    (h : validStatus (err.status.or (JsValue.number 500)) = true)
    (hb : bodylessStatus (err.status.or (JsValue.number 500)) = false) :
    (errorHandler err timestamp : Response J) = errorEnvelope err timestamp := by
  simp [errorHandler, errorEnvelope, h, hb]

theorem errorHandler_of_bodyless {J : Type} (err : JsError) (timestamp : JsString)
    (h : validStatus (err.status.or (JsValue.number 500)) = true)
    (hb : bodylessStatus (err.status.or (JsValue.number 500)) = true) :
    (errorHandler err timestamp : Response J)
      = ⟨err.status.or (JsValue.number 500), Body.empty⟩ := by
  simp [errorHandler, h, hb]

theorem errorHandler_of_invalid {J : Type} (err : JsError) (timestamp : JsString)
    (h : validStatus (err.status.or (JsValue.number 500)) = false) :
    (errorHandler err timestamp : Response J) = expressErrorPage := by
  simp [errorHandler, h]

theorem status_or_cases {v : JsValue} (h : v.truthy = false ∨ errorStatus v = true) :
    ∃ n : Int, v.or (JsValue.number 500) = JsValue.number n ∧ 400 ≤ n ∧ n ≤ 599 := by
  rcases h with h | h
  · exact ⟨500, by simp [JsValue.or, h], by decide, by decide⟩
  · cases v with
    | number n =>
      simp only [errorStatus, Bool.and_eq_true, decide_eq_true_eq] at h
      have hn : (JsValue.number n).truthy = true := by
        simp only [JsValue.truthy, bne_iff_ne, ne_eq]
        omega
      exact ⟨n, by simp [JsValue.or, hn], h.1, h.2⟩
    | _ => simp [errorStatus] at h

theorem errorHandler_of_errorStatus {J : Type} (err : JsError) (timestamp : JsString)
    (h : err.status.truthy = false ∨ errorStatus err.status = true) :
    (errorHandler err timestamp : Response J) = errorEnvelope err timestamp := by
  obtain ⟨n, hn, h1, h2⟩ := status_or_cases h
  apply errorHandler_of_json
  · rw [hn]
    simp only [validStatus, Bool.and_eq_true, decide_eq_true_eq]
    omega
  · rw [hn]
    simp only [bodylessStatus, Bool.or_eq_false_iff, Bool.and_eq_false_iff,
      decide_eq_false_iff_not, beq_eq_false_iff_ne, ne_eq]
    omega

theorem serve_inherited (ip : String) (times : List Int) :
    ∀ rl : RateLimit, rl.lookup ip = Slot.inherited →
      serve rl ip times = times.map fun _ => (Decision.allowed, rl ip) := by
  induction times with
  | nil => intro rl _; rfl
  | cons t ts ih =>
    intro rl h
    simp only [serve, securityMiddleware_inherited t h, List.map_cons, ih rl h]
/-! ## Claims on the normaliser -/

/-- C1 (fenced round trip): for every string `s` that begins with an opening
brace and ends with a closing brace, `cleanJsonResponse` applied to `s` inside
a fenced block tagged `json` returns exactly `s`, so any parser gives the same
result on the normalised text as on `s`. -/
theorem fenced_round_trip (s : JsString) (hb : s.head? = some '{')
    (he : s.getLast? = some '}') :
    cleanJsonResponse ("```json\n".toList ++ s ++ "\n```".toList) = s ∧
    ∀ (β : Type) (parse : JsString → β),
      parse (cleanJsonResponse ("```json\n".toList ++ s ++ "\n```".toList)) = parse s := by
  have h := cleanJsonResponse_prose "```json\n".toList "\n```".toList s
    (by decide) (by decide) hb he
  exact ⟨h, fun _ parse => congrArg parse h⟩

/-- Witness of C1 on the object text `{"a":1}`. -/
theorem fenced_round_trip_witness :
    cleanJsonResponse ("```json\n".toList ++ "\x7b\"a\":1\x7d".toList ++ "\n```".toList)
      = "\x7b\"a\":1\x7d".toList :=
  (fenced_round_trip "\x7b\"a\":1\x7d".toList (by decide) (by decide)).1

/-- C2 (prose-wrapped object): for every prefix `p` and suffix `q` without
brace or bracket characters and every `s` that begins with an opening brace
and ends with a closing brace, `cleanJsonResponse (p ++ s ++ q) = s`. -/
theorem prose_wrapped_object (p q s : JsString) (hp : NoContainerChar p)
    (hq : NoContainerChar q) (hb : s.head? = some '{') (he : s.getLast? = some '}') :
    cleanJsonResponse (p ++ s ++ q) = s :=
  cleanJsonResponse_prose p q s hp hq hb he

/-- Witness of C2: the chatty response of the specification yields `{"a":1}`. -/
theorem prose_wrapped_object_witness :
    cleanJsonResponse ("Sure, here you go: ```json\n".toList ++ "\x7b\"a\":1\x7d".toList
        ++ "\n``` Hope that helps!".toList) = "\x7b\"a\":1\x7d".toList :=
  prose_wrapped_object "Sure, here you go: ```json\n".toList "\n``` Hope that helps!".toList
    "\x7b\"a\":1\x7d".toList (by decide) (by decide) (by decide) (by decide)

/-- C3 as stated fails: on the text `] [` the three conditions hold (a `[`
exists, no brace exists, a `]` exists), yet `substring` swaps its arguments
and the result is the single space between the brackets. -/
theorem array_tie_break_counterexample :
    ¬ ∀ text : JsString,
      indexOf (stripWrapping text) '[' ≠ -1 →
      (indexOf (stripWrapping text) '{' = -1 ∨
        indexOf (stripWrapping text) '[' < indexOf (stripWrapping text) '{') →
      lastIndexOf (stripWrapping text) ']' ≠ -1 →
      cleanJsonResponse text = sliceInclusive (stripWrapping text)
          (indexOf (stripWrapping text) '[') (lastIndexOf (stripWrapping text) ']') ∧
      (cleanJsonResponse text).head? = some '[' ∧
      (cleanJsonResponse text).getLast? = some ']' := by
  intro h
  have h1 := (h "] [".toList (by decide) (by decide) (by decide)).2.1
  revert h1
  decide

/-- C3, amended: when, in the text left by trimming and fence and backtick
stripping, a `[` exists, either no brace exists or the first `[` comes
strictly before the first brace, a `]` exists, and the first `[` comes before
the last `]`, then `cleanJsonResponse` returns the slice from the first `[`
through the last `]` inclusive, which begins with `[` and ends with `]`. -/
theorem array_tie_break (text : JsString)
    (h1 : indexOf (stripWrapping text) '[' ≠ -1)
    (h2 : indexOf (stripWrapping text) '{' = -1 ∨
      indexOf (stripWrapping text) '[' < indexOf (stripWrapping text) '{')
    (h3 : lastIndexOf (stripWrapping text) ']' ≠ -1)
    (h4 : indexOf (stripWrapping text) '[' < lastIndexOf (stripWrapping text) ']') :
    cleanJsonResponse text = sliceInclusive (stripWrapping text)
        (indexOf (stripWrapping text) '[') (lastIndexOf (stripWrapping text) ']') ∧
    (cleanJsonResponse text).head? = some '[' ∧
    (cleanJsonResponse text).getLast? = some ']' :=
  extractContainer_array_slice (stripWrapping text) h1 h2 h3 h4

/-- Witness of C3: the array in front of a trailing object is selected. -/
theorem array_tie_break_witness :
    cleanJsonResponse "[1,2,3] is the result, also see \x7b\"x\":1\x7d".toList
        = "[1,2,3]".toList ∧
    (cleanJsonResponse "[1,2,3] is the result, also see \x7b\"x\":1\x7d".toList).head?
        = some '[' ∧
    (cleanJsonResponse "[1,2,3] is the result, also see \x7b\"x\":1\x7d".toList).getLast?
        = some ']' :=
  have h := array_tie_break "[1,2,3] is the result, also see \x7b\"x\":1\x7d".toList
    (by decide) (by decide) (by decide) (by decide)
  ⟨h.1.trans (by decide), h.2⟩

/-- C4 as stated fails: `a` between two backticks holds no container
character, yet the result is `a`, not the trimmed input. -/
theorem no_container_counterexample :
    ¬ ∀ text : JsString, NoContainerChar text → cleanJsonResponse text = trim text := by
  intro h
  have h1 := h [backtick, 'a', backtick] (by decide)
  revert h1
  decide

/-- C4, amended: for every text without brace or bracket characters the
container search changes nothing, so `cleanJsonResponse` returns the text left
by trimming and fence and backtick stripping; when the trimmed input neither
begins nor ends with a backtick, that is the trimmed input itself. -/
theorem no_container (text : JsString) (h : NoContainerChar text) :
    cleanJsonResponse text = stripWrapping text ∧
    ((trim text).head? ≠ some backtick → (trim text).getLast? ≠ some backtick →
      cleanJsonResponse text = trim text) :=
  ⟨cleanJsonResponse_none h, fun h1 h2 =>
    (cleanJsonResponse_none h).trans (stripWrapping_eq_trim text h1 h2)⟩

/-- Witness of C4 on a plain sentence with surrounding white space. -/
theorem no_container_witness :
    cleanJsonResponse "  no json here \n".toList = "no json here".toList :=
  ((no_container "  no json here \n".toList (by decide)).2 (by decide) (by decide)).trans
    (by decide)

/-- C5 (idempotence on clean input): a text without surrounding white space,
that neither starts nor ends with a backtick, and that either begins with an
opening brace and ends with a closing brace or begins with `[` and ends with
`]`, is returned as it is; hence normalising twice equals normalising once. -/
theorem idempotent_on_clean (x : JsString) (hws : trim x = x)
    (hb1 : x.head? ≠ some backtick) (hb2 : x.getLast? ≠ some backtick)
    (h : (x.head? = some '{' ∧ x.getLast? = some '}') ∨
      (x.head? = some '[' ∧ x.getLast? = some ']')) :
    cleanJsonResponse x = x ∧
    cleanJsonResponse (cleanJsonResponse x) = cleanJsonResponse x := by
  have key : cleanJsonResponse x = x := by
    rcases h with ⟨hb, he⟩ | ⟨hb, he⟩
    · simpa using cleanJsonResponse_prose [] [] x (by decide) (by decide) hb he
    · have hs : stripWrapping x = x := by
        rw [stripWrapping_eq_trim x (by rwa [hws]) (by rwa [hws]), hws]
      obtain ⟨m, rfl⟩ := exists_body (by decide) hb he
      show extractContainer (stripWrapping _) = _
      rw [hs, extractContainer_array_text]
  exact ⟨key, by rw [key, key]⟩

/-- Witness of C5 on an array text that holds an object. -/
theorem idempotent_on_clean_witness :
    cleanJsonResponse "[\x7b\"x\":1\x7d, 2]".toList = "[\x7b\"x\":1\x7d, 2]".toList ∧
    cleanJsonResponse (cleanJsonResponse "[\x7b\"x\":1\x7d, 2]".toList)
      = cleanJsonResponse "[\x7b\"x\":1\x7d, 2]".toList :=
  idempotent_on_clean "[\x7b\"x\":1\x7d, 2]".toList (by decide) (by decide) (by decide)
    (by decide)

/-! ## Claims on the route and on the rate limiter -/

/-- C6 (end-to-end result of `POST /parse`): for an admitted request with a
non-empty `rawText` whose completion call returns the text `c`, a successful
`JSON.parse` of `cleanJsonResponse c` with value `v` gives the response 200
with body exactly `v`, and a failing one gives the response 500 whose
`details` is the parser's message and whose `rawContent` is the whole
normalised text. -/
theorem parse_end_to_end {J : Type} (jsonParse : JsString → Except JsString J)
    (groq : ChatRequest → Completion) (rateLimit : RateLimit) (ip : String) (now : Int)
    (timestamp rawText c : JsString) (isImage : JsValue)
    (hallowed : (securityMiddleware rateLimit ip now).2 = Decision.allowed)
    (hraw : rawText ≠ [])
    (hc : groq (chatRequest ⟨JsValue.string rawText, isImage⟩)
      = Completion.resolved (JsValue.string c)) :
    (∀ v, jsonParse (cleanJsonResponse c) = Except.ok v →
      (postParse jsonParse groq rateLimit ip now timestamp
          ⟨JsValue.string rawText, isImage⟩).2.1
        = ⟨JsValue.number 200, Body.parsed v⟩) ∧
    (∀ message, jsonParse (cleanJsonResponse c) = Except.error message →
      (postParse jsonParse groq rateLimit ip now timestamp
          ⟨JsValue.string rawText, isImage⟩).2.1
        = ⟨JsValue.number 500, Body.fields
            [("error", JsValue.string "Failed to parse AI response as JSON".toList),
             ("details", JsValue.string message),
             ("rawContent", JsValue.string (cleanJsonResponse c))]⟩) := by
  have htruthy : (JsValue.string rawText).truthy = true := by
    cases rawText with
    | nil => exact absurd rfl hraw
    | cons a l => rfl
  have hpair : securityMiddleware rateLimit ip now
      = ((securityMiddleware rateLimit ip now).1, Decision.allowed) := by
    rw [← hallowed]
  constructor
  · intro v hv
    unfold postParse
    rw [hpair]
    simp only [parseRoute, htruthy, hc, hv, Bool.not_true, Bool.false_eq_true, if_false]
  · intro message hm
    unfold postParse
    rw [hpair]
    simp only [parseRoute, htruthy, hc, hm, Bool.not_true, Bool.false_eq_true, if_false]

/-- Witness of C6: the fenced completion of the specification gives the
response 200 with the decoded object as body. -/
theorem parse_end_to_end_witness :
    (postParse parseJohnDoe
        (fun _ => Completion.resolved (JsValue.string
          "```json\n\x7b\"personalInfo\":\x7b\"fullName\":\"John Doe\"\x7d\x7d\n```".toList))
        RateLimit.empty "198.51.100.4" 0 "2025-01-01T00:00:00.000Z".toList
        ⟨JsValue.string "John Doe, Software Engineer at Acme".toList, JsValue.bool false⟩).2.1
      = ⟨JsValue.number 200, Body.parsed [("personalInfo", [("fullName", "John Doe")])]⟩ :=
  (parse_end_to_end parseJohnDoe _ RateLimit.empty "198.51.100.4" 0 _
    "John Doe, Software Engineer at Acme".toList _ (JsValue.bool false)
    (by decide) (by decide) rfl).1 _
    ((congrArg parseJohnDoe (by decide :
        cleanJsonResponse
            "```json\n\x7b\"personalInfo\":\x7b\"fullName\":\"John Doe\"\x7d\x7d\n```".toList
          = "\x7b\"personalInfo\":\x7b\"fullName\":\"John Doe\"\x7d\x7d".toList)).trans
      (if_pos rfl))

/-- C7 (threshold within one window): when the first request of a client at
time `t0` creates or resets its entry and the following requests arrive with
`now - t0 ≤ RATE_LIMIT_WINDOW`, every request is handled, the `k`-th request
of the window is allowed if and only if `k ≤ MAX_REQUESTS`, and the count after
it is `k`, for the denied requests too. -/
theorem threshold_within_window (rateLimit : RateLimit) (ip : String) (t0 : Int)
    (ts : List Int)
    (hfirst : rateLimit.lookup ip = Slot.missing ∨
      ∃ e, rateLimit ip = some e ∧ t0 - e.startTime > RATE_LIMIT_WINDOW)
    (hts : ∀ t ∈ ts, t - t0 ≤ RATE_LIMIT_WINDOW) :
    (serve rateLimit ip (t0 :: ts)).length = ts.length + 1 ∧
    ∀ (k : Nat) (r : Decision × Option Entry), (serve rateLimit ip (t0 :: ts))[k]? = some r →
      (r.1 = Decision.allowed ↔ k + 1 ≤ MAX_REQUESTS) ∧ r.2 = some ⟨k + 1, t0⟩ := by
  have hstep : securityMiddleware rateLimit ip t0
      = (rateLimit.set ip ⟨1, t0⟩, Decision.allowed) := by
    rcases hfirst with h | ⟨e, he, hx⟩
    · exact securityMiddleware_missing t0 h
    · exact securityMiddleware_expired t0 he hx
  refine ⟨by simp [serve_length], ?_⟩
  intro k r hr
  cases k with
  | zero =>
    simp only [serve, hstep, List.getElem?_cons_zero, Option.some.injEq] at hr
    subst hr
    exact ⟨⟨fun _ => by decide, fun _ => rfl⟩, set_self _ _ _⟩
  | succ k =>
    simp only [serve, hstep, List.getElem?_cons_succ] at hr
    have := serve_within ip t0 ts (rateLimit.set ip ⟨1, t0⟩) 1 (set_self _ _ _) hts k r hr
    have e : 1 + k + 1 = k + 1 + 1 := by omega
    rw [e] at this
    exact this

set_option maxRecDepth 100000 in
/-- Witness of C7: after the first request at time 0 and a hundred more one
second later, the 101st request is denied and the count is 101. -/
theorem threshold_within_window_witness :
    (serve RateLimit.empty "198.51.100.4" (0 :: List.replicate 100 1000))[100]?
      = some (Decision.denied 59, some ⟨101, 0⟩) ∧
    ((Decision.denied 59 = Decision.allowed ↔ 100 + 1 ≤ MAX_REQUESTS) ∧
      (some ⟨101, 0⟩ : Option Entry) = some ⟨100 + 1, 0⟩) :=
  ⟨by decide,
    (threshold_within_window RateLimit.empty "198.51.100.4" 0 (List.replicate 100 1000)
      (Or.inl (by decide)) (by decide)).2 100 (Decision.denied 59, some ⟨101, 0⟩) (by decide)⟩

/-- For a key whose lookup `rateLimit[ip]` finds nothing, or finds an entry
with `now - startTime > RATE_LIMIT_WINDOW`, the request is allowed whatever the
previous count was, and the entry afterwards is exactly
`{count: 1, startTime: now}`. -/
theorem window_reset (rateLimit : RateLimit) (ip : String) (now : Int)
    (h : rateLimit.lookup ip = Slot.missing ∨
      ∃ e, rateLimit.lookup ip = Slot.entry e ∧ now - e.startTime > RATE_LIMIT_WINDOW) :
    (securityMiddleware rateLimit ip now).2 = Decision.allowed ∧
    (securityMiddleware rateLimit ip now).1 ip = some ⟨1, now⟩ := by
  have hstep : securityMiddleware rateLimit ip now
      = (rateLimit.set ip ⟨1, now⟩, Decision.allowed) := by
    rcases h with h | ⟨e, he, hx⟩
    · exact securityMiddleware_missing now h
    · exact securityMiddleware_expired now (lookup_entry_iff.1 he) hx
  rw [hstep]
  exact ⟨rfl, set_self _ _ _⟩

/-- An entry with count 500 whose window started at time 0 is replaced by a
fresh one at time 60001. -/
theorem window_reset_expired_entry :
    (securityMiddleware (RateLimit.empty.set "198.51.100.4" ⟨500, 0⟩) "198.51.100.4" 60001).2
      = Decision.allowed ∧
    (securityMiddleware (RateLimit.empty.set "198.51.100.4" ⟨500, 0⟩) "198.51.100.4" 60001).1
      "198.51.100.4" = some ⟨1, 60001⟩ :=
  window_reset (RateLimit.empty.set "198.51.100.4" ⟨500, 0⟩) "198.51.100.4" 60001
    (Or.inr ⟨⟨500, 0⟩, by decide, by decide⟩)

/-- C8 at the client key `constructor`: on the fresh table the key has no
entry; at any time the request is allowed, but the lookup finds the member
inherited from `Object.prototype`, so afterwards the key still has no entry
instead of `{count: 1, startTime: now}`, and every later request of this key
is allowed without being counted. -/
theorem window_reset_inherited_key :
    RateLimit.empty "constructor" = none ∧
    (∀ now : Int,
      (securityMiddleware RateLimit.empty "constructor" now).2 = Decision.allowed ∧
      (securityMiddleware RateLimit.empty "constructor" now).1 "constructor" = none ∧
      (securityMiddleware RateLimit.empty "constructor" now).1 "constructor"
        ≠ some ⟨1, now⟩) ∧
    (∀ times : List Int,
      serve RateLimit.empty "constructor" times
        = times.map fun _ => (Decision.allowed, none)) := by
  refine ⟨rfl, fun now => ?_, fun times => ?_⟩
  · rw [securityMiddleware_inherited now lookup_constructor]
    exact ⟨rfl, rfl, fun h => by cases h⟩
  · exact serve_inherited "constructor" times RateLimit.empty lookup_constructor

set_option maxRecDepth 100000 in
/-- C9 at the boundary of the window: 101 requests at time 0, the last one
denied with `retryAfter` 60, and the next request at time 60000, that is 60
seconds later, denied again. -/
theorem retry_after_boundary :
    decisions RateLimit.empty "203.0.113.7" (List.replicate 101 0 ++ [0 + 1000 * 60])
      = List.replicate 100 Decision.allowed ++ [Decision.denied 60, Decision.denied 0] := by
  decide

set_option maxRecDepth 100000 in
/-- C10 as stated fails: one request at time 0, ninety-nine at time 59999 and
a hundred at time 60001 are all allowed, so 199 allowed requests fall into
the interval of length `RATE_LIMIT_WINDOW` that starts at 59999. -/
theorem sliding_window_counterexample :
    ¬ ∀ (ip : String) (times : List Int), times.Sorted (· ≤ ·) → ∀ a : Int,
      allowedBetween RateLimit.empty ip times a (a + RATE_LIMIT_WINDOW - 1)
        ≤ MAX_REQUESTS := by
  intro h
  have h1 := h "198.51.100.4" (0 :: (List.replicate 99 59999 ++ List.replicate 100 60001))
    (by decide) 59999
  revert h1
  decide

/-- C10, amended (fixed windows): the number of allowed requests counted in
one window of the key's entry, the window with a given `startTime`, never
exceeds `MAX_REQUESTS`, for every sequence of requests; for a key whose lookup
does not find an inherited member every request is counted in such a window,
and, when the times do not decrease and the key has no entry or one with a
count of at least 1, the number of allowed requests with a time in an
interval of length `RATE_LIMIT_WINDOW` never exceeds `2 * MAX_REQUESTS - 1`. -/
theorem fixed_window_limit (rateLimit : RateLimit) (ip : String) (times : List Int)
    (start a : Int) :
    allowedInWindow rateLimit ip times start ≤ MAX_REQUESTS ∧
    (rateLimit.lookup ip ≠ Slot.inherited →
      (∀ r ∈ serve rateLimit ip times, ∃ e, r.2 = some e) ∧
      (times.Sorted (· ≤ ·) → (∀ e, rateLimit ip = some e → 1 ≤ e.count) →
        allowedBetween rateLimit ip times a (a + RATE_LIMIT_WINDOW)
          ≤ 2 * MAX_REQUESTS - 1)) :=
  ⟨(allowedInWindow_le_budget ip start times rateLimit).trans (windowBudget_le _ _),
    fun hl => ⟨serve_entry_some ip times rateLimit hl, fun hs hc =>
      (allowedBetween_le_budget ip a times hs rateLimit hl).trans (slidingBudget_le a hc)⟩⟩

set_option maxRecDepth 100000 in
/-- Witness of C10 on the run of the counterexample: the window started at
time 0 allows a hundred requests, and the 199 allowed requests between 59999
and 60001 reach the bound for an interval. -/
theorem fixed_window_limit_witness :
    allowedInWindow RateLimit.empty "198.51.100.4"
        (0 :: (List.replicate 99 59999 ++ List.replicate 100 60001)) 0 = 100 ∧
    allowedBetween RateLimit.empty "198.51.100.4"
        (0 :: (List.replicate 99 59999 ++ List.replicate 100 60001))
        59999 (59999 + RATE_LIMIT_WINDOW) = 199 ∧
    allowedBetween RateLimit.empty "198.51.100.4"
        (0 :: (List.replicate 99 59999 ++ List.replicate 100 60001))
        59999 (59999 + RATE_LIMIT_WINDOW) ≤ 2 * MAX_REQUESTS - 1 :=
  have h := fixed_window_limit RateLimit.empty "198.51.100.4"
    (0 :: (List.replicate 99 59999 ++ List.replicate 100 60001)) 0 59999
  ⟨by decide, by decide, (h.2 (by decide)).2 (by decide) (by decide)⟩

/-! ## Claims on validation, on the failures and on the prompt -/

/-- C11 as stated fails: a body whose `rawText` is the number 0 is answered
with the response 400 `Missing raw text`, although `rawText` is neither absent
nor the empty string. -/
theorem validation_counterexample :
    ¬ ∀ body : ParseBody,
      ((postParse parseJohnDoe (fun _ => Completion.resolved JsValue.null) RateLimit.empty
          "198.51.100.4" 0 "2025-01-01T00:00:00.000Z".toList body).2.1
        = missingRawTextResponse ↔
        (body.rawText = JsValue.undefined ∨ body.rawText = JsValue.string [])) := by
  intro h
  have h1 := (h ⟨JsValue.number 0, JsValue.bool false⟩).1
    ((postParse_missing_iff _ _ _ _ (by decide)).2 rfl)
  revert h1
  decide

/-- C11, amended (validation): for an admitted request the response is the 400
`Missing raw text` if and only if `rawText` is falsy, that is absent, `null`,
`false`, 0 or the empty string; whether it is does not depend on `isImage`,
and on a validation failure no request is sent to the completion service. -/
theorem validation {J : Type} (jsonParse : JsString → Except JsString J)
    (groq : ChatRequest → Completion) (rateLimit : RateLimit) (ip : String) (now : Int)
    (timestamp : JsString) (body : ParseBody)
    (hallowed : (securityMiddleware rateLimit ip now).2 = Decision.allowed) :
    ((postParse jsonParse groq rateLimit ip now timestamp body).2.1 = missingRawTextResponse ↔
      body.rawText.truthy = false) ∧
    (body.rawText.truthy = false ↔
      body.rawText = JsValue.undefined ∨ body.rawText = JsValue.null ∨
      body.rawText = JsValue.bool false ∨ body.rawText = JsValue.number 0 ∨
      body.rawText = JsValue.string []) ∧
    (∀ isImage : JsValue,
      ((postParse jsonParse groq rateLimit ip now timestamp ⟨body.rawText, isImage⟩).2.1
          = missingRawTextResponse ↔
        (postParse jsonParse groq rateLimit ip now timestamp body).2.1
          = missingRawTextResponse)) ∧
    (body.rawText.truthy = false →
      (postParse jsonParse groq rateLimit ip now timestamp body).2.2 = []) :=
  ⟨postParse_missing_iff jsonParse groq timestamp body hallowed,
    truthy_eq_false_iff body.rawText,
    fun isImage =>
      (postParse_missing_iff jsonParse groq timestamp ⟨body.rawText, isImage⟩ hallowed).trans
        (postParse_missing_iff jsonParse groq timestamp body hallowed).symm,
    postParse_requests_invalid jsonParse groq timestamp body hallowed⟩

/-- Witness of C11: a body without `rawText` is answered with the response 400
and no request goes to the completion service. -/
theorem validation_witness :
    (postParse parseJohnDoe (fun _ => Completion.resolved JsValue.null) RateLimit.empty
        "198.51.100.4" 0 "2025-01-01T00:00:00.000Z".toList
        ⟨JsValue.undefined, JsValue.bool true⟩).2.1 = missingRawTextResponse ∧
    (postParse parseJohnDoe (fun _ => Completion.resolved JsValue.null) RateLimit.empty
        "198.51.100.4" 0 "2025-01-01T00:00:00.000Z".toList
        ⟨JsValue.undefined, JsValue.bool true⟩).2.2 = [] :=
  have h := validation parseJohnDoe (fun _ => Completion.resolved JsValue.null) RateLimit.empty
    "198.51.100.4" 0 "2025-01-01T00:00:00.000Z".toList ⟨JsValue.undefined, JsValue.bool true⟩
    (by decide)
  ⟨h.1.2 rfl, h.2.2.2 rfl⟩

/-- C12 as stated fails: with an empty string as completion content the text
goes through the normaliser and the parser, and the response is the
extraction-failure envelope with the fields `details` and `rawContent`. -/
theorem empty_content_counterexample :
    ¬ ∀ content : JsValue,
      (content = JsValue.string [] ∨ content = JsValue.undefined ∨ content = JsValue.null) →
      "details" ∉ (postParse parseJohnDoe (fun _ => Completion.resolved content)
          RateLimit.empty "198.51.100.4" 0 "2025-01-01T00:00:00.000Z".toList
          ⟨JsValue.string "John Doe, Software Engineer at Acme".toList,
            JsValue.bool false⟩).2.1.body.fieldNames ∧
      "rawContent" ∉ (postParse parseJohnDoe (fun _ => Completion.resolved content)
          RateLimit.empty "198.51.100.4" 0 "2025-01-01T00:00:00.000Z".toList
          ⟨JsValue.string "John Doe, Software Engineer at Acme".toList,
            JsValue.bool false⟩).2.1.body.fieldNames := by
  intro h
  have h1 := (h (JsValue.string []) (Or.inl rfl)).1
  revert h1
  decide

/-- C12, amended (empty or absent completion content): for an admitted valid
request, an absent content (`undefined` or `null`) makes the call of the
normaliser throw, and the response is the one of `errorHandler`: status 500,
type `INTERNAL_ERROR`, the fields `error`, `type` and `timestamp`, whatever the
parser is; an empty string is normalised to the empty string and handed to the
parser, and when the parser rejects it the response is the extraction-failure
envelope with its message as `details` and the empty string as `rawContent`. -/
theorem absent_or_empty_content {J : Type} (jsonParse : JsString → Except JsString J)
    (groq : ChatRequest → Completion) (rateLimit : RateLimit) (ip : String) (now : Int)
    (timestamp : JsString) (body : ParseBody)
    (hallowed : (securityMiddleware rateLimit ip now).2 = Decision.allowed)
    (hvalid : body.rawText.truthy = true) :
    (∀ content, (content = JsValue.undefined ∨ content = JsValue.null) →
      groq (chatRequest body) = Completion.resolved content →
      (postParse jsonParse groq rateLimit ip now timestamp body).2.1
        = errorHandler (trimTypeError content) timestamp ∧
      (postParse jsonParse groq rateLimit ip now timestamp body).2.1.status
        = JsValue.number 500 ∧
      (postParse jsonParse groq rateLimit ip now timestamp body).2.1.body.fieldNames
        = ["error", "type", "timestamp"] ∧
      (postParse jsonParse groq rateLimit ip now timestamp body).2.1.body.field "type"
        = some (JsValue.string "INTERNAL_ERROR".toList)) ∧
    (groq (chatRequest body) = Completion.resolved (JsValue.string []) →
      ∀ message, jsonParse [] = Except.error message →
        (postParse jsonParse groq rateLimit ip now timestamp body).2.1
          = parseFailureResponse message [] ∧
        (postParse jsonParse groq rateLimit ip now timestamp body).2.1.body.fieldNames
          = ["error", "details", "rawContent"]) := by
  constructor
  · intro content hc hg
    have hns : ∀ s, content ≠ JsValue.string s := by
      intro s hs
      rcases hc with h | h <;> rw [h] at hs <;> cases hs
    have e : (postParse jsonParse groq rateLimit ip now timestamp body).2.1
        = errorHandler (trimTypeError content) timestamp := by
      rw [postParse_allowed jsonParse groq timestamp body hallowed,
        parseRoute_not_string jsonParse hvalid hg hns]
    rw [e]
    exact ⟨rfl, rfl, rfl, rfl⟩
  · intro hg message hm
    have hclean : cleanJsonResponse [] = [] := by decide
    have e : (postParse jsonParse groq rateLimit ip now timestamp body).2.1
        = parseFailureResponse message [] := by
      rw [postParse_allowed jsonParse groq timestamp body hallowed,
        parseRoute_error hvalid hg (by rw [hclean]; exact hm), hclean]
    rw [e]
    exact ⟨rfl, rfl⟩

/-- Witness of C12: an empty completion content, with a parser that rejects
the empty text, gives the extraction-failure envelope. -/
theorem absent_or_empty_content_witness :
    (postParse parseJohnDoe (fun _ => Completion.resolved (JsValue.string []))
        RateLimit.empty "198.51.100.4" 0 "2025-01-01T00:00:00.000Z".toList
        ⟨JsValue.string "John Doe, Software Engineer at Acme".toList,
          JsValue.bool false⟩).2.1
      = parseFailureResponse "Unexpected token".toList [] :=
  ((absent_or_empty_content parseJohnDoe (fun _ => Completion.resolved (JsValue.string []))
    RateLimit.empty "198.51.100.4" 0 "2025-01-01T00:00:00.000Z".toList
    ⟨JsValue.string "John Doe, Software Engineer at Acme".toList, JsValue.bool false⟩
    (by decide) (by decide)).2 rfl "Unexpected token".toList (if_neg (by decide))).1

/-- C13 as stated fails: for an error of the completion call that carries only
a message, the type of the response is `INTERNAL_ERROR`. -/
theorem upstream_mapping_counterexample :
    ¬ ∀ err : JsError,
      (postParse parseJohnDoe (fun _ => Completion.rejected err) RateLimit.empty
          "198.51.100.4" 0 "2025-01-01T00:00:00.000Z".toList
          ⟨JsValue.string "John Doe, Software Engineer at Acme".toList,
            JsValue.bool false⟩).2.1.status = JsValue.number 500 ∧
      (postParse parseJohnDoe (fun _ => Completion.rejected err) RateLimit.empty
          "198.51.100.4" 0 "2025-01-01T00:00:00.000Z".toList
          ⟨JsValue.string "John Doe, Software Engineer at Acme".toList,
            JsValue.bool false⟩).2.1.body.field "type"
        = some (JsValue.string "UPSTREAM_ERROR".toList) := by
  intro h
  have h1 := (h ⟨JsValue.undefined, JsValue.undefined,
    JsValue.string "Connection error.".toList⟩).2
  revert h1
  decide

/-- C13, amended (upstream failure mapping): for an admitted valid request
whose completion call throws `err`, with an `err.status` that is falsy or an
integer from 400 to 599, the response is the JSON envelope of `errorHandler`:
its status is `err.status`, or 500 when that is falsy, its type is `err.type`,
or `INTERNAL_ERROR` when that is falsy, and its error text is `err.message`,
or the default text when that is falsy. -/
theorem upstream_mapping {J : Type} (jsonParse : JsString → Except JsString J)
    (groq : ChatRequest → Completion) (rateLimit : RateLimit) (ip : String) (now : Int)
    (timestamp : JsString) (body : ParseBody) (err : JsError)
    (hallowed : (securityMiddleware rateLimit ip now).2 = Decision.allowed)
    (hvalid : body.rawText.truthy = true)
    (hthrow : groq (chatRequest body) = Completion.rejected err)
    (hstatus : err.status.truthy = false ∨ errorStatus err.status = true) :
    (postParse jsonParse groq rateLimit ip now timestamp body).2.1
      = ⟨err.status.or (JsValue.number 500), Body.fields
          [("error", err.message.or (JsValue.string "An unexpected error occurred".toList)),
           ("type", err.type.or (JsValue.string "INTERNAL_ERROR".toList)),
           ("timestamp", JsValue.string timestamp)]⟩ ∧
    (err.status.truthy = false →
      (postParse jsonParse groq rateLimit ip now timestamp body).2.1.status
        = JsValue.number 500) ∧
    (err.type.truthy = false →
      (postParse jsonParse groq rateLimit ip now timestamp body).2.1.body.field "type"
        = some (JsValue.string "INTERNAL_ERROR".toList)) := by
  have e : (postParse jsonParse groq rateLimit ip now timestamp body).2.1
      = errorEnvelope err timestamp := by
    rw [postParse_allowed jsonParse groq timestamp body hallowed,
      parseRoute_rejected jsonParse hvalid hthrow]
    exact errorHandler_of_errorStatus err timestamp hstatus
  rw [e]
  refine ⟨rfl, ?_, ?_⟩
  · intro hs
    simp [errorEnvelope, JsValue.or, hs]
  · intro ht
    simp [errorEnvelope, JsValue.or, ht, Body.field]

/-- Witness of C13: an error with the status 429 and no type gives a response
with the status 429 and the type `INTERNAL_ERROR`. -/
theorem upstream_mapping_witness :
    (postParse parseJohnDoe
        (fun _ => Completion.rejected ⟨JsValue.number 429, JsValue.undefined,
          JsValue.string "Rate limit reached".toList⟩)
        RateLimit.empty "198.51.100.4" 0 "2025-01-01T00:00:00.000Z".toList
        ⟨JsValue.string "John Doe, Software Engineer at Acme".toList,
          JsValue.bool false⟩).2.1
      = ⟨JsValue.number 429, Body.fields
          [("error", JsValue.string "Rate limit reached".toList),
           ("type", JsValue.string "INTERNAL_ERROR".toList),
           ("timestamp", JsValue.string "2025-01-01T00:00:00.000Z".toList)]⟩ :=
  (upstream_mapping parseJohnDoe
    (fun _ => Completion.rejected ⟨JsValue.number 429, JsValue.undefined,
      JsValue.string "Rate limit reached".toList⟩)
    RateLimit.empty "198.51.100.4" 0 "2025-01-01T00:00:00.000Z".toList
    ⟨JsValue.string "John Doe, Software Engineer at Acme".toList, JsValue.bool false⟩
    ⟨JsValue.number 429, JsValue.undefined, JsValue.string "Rate limit reached".toList⟩
    (by decide) (by decide) rfl (Or.inr (by decide))).1

/-- C14 as stated fails: the response 400 for a missing `rawText` has the
field `error` only, neither `type` nor `timestamp`. -/
theorem error_envelope_counterexample :
    ¬ ∀ body : ParseBody,
      (postParse parseJohnDoe (fun _ => Completion.resolved JsValue.null) RateLimit.empty
          "198.51.100.4" 0 "2025-01-01T00:00:00.000Z".toList body).2.1.status
        ≠ JsValue.number 200 →
      "error" ∈ (postParse parseJohnDoe (fun _ => Completion.resolved JsValue.null)
          RateLimit.empty "198.51.100.4" 0 "2025-01-01T00:00:00.000Z".toList
          body).2.1.body.fieldNames ∧
      "type" ∈ (postParse parseJohnDoe (fun _ => Completion.resolved JsValue.null)
          RateLimit.empty "198.51.100.4" 0 "2025-01-01T00:00:00.000Z".toList
          body).2.1.body.fieldNames ∧
      "timestamp" ∈ (postParse parseJohnDoe (fun _ => Completion.resolved JsValue.null)
          RateLimit.empty "198.51.100.4" 0 "2025-01-01T00:00:00.000Z".toList
          body).2.1.body.fieldNames := by
  intro h
  have h1 := (h ⟨JsValue.undefined, JsValue.bool false⟩ (by decide)).2.1
  revert h1
  decide

/-- C14, amended (error envelope): each response of the chain that is not a
success is tied to its cause and has the field `error`.  A denied request
gets the 429 with the fields `error` and `retryAfter`; an allowed request
with a falsy `rawText` the 400 with the field `error` alone; a model response
that the parser rejects the 500 with the fields `error`, `details` and
`rawContent`; and an error passed to `errorHandler` (the completion call
throws, or its content is not a string), when its status is falsy or an
integer from 400 to 599, the envelope with the fields `error`, `type` and
`timestamp`.  A model response that the parser accepts gets the 200. -/
theorem error_envelope {J : Type} (jsonParse : JsString → Except JsString J)
    (groq : ChatRequest → Completion) (rateLimit : RateLimit) (ip : String) (now : Int)
    (timestamp : JsString) (body : ParseBody) :
    (∀ r, (securityMiddleware rateLimit ip now).2 = Decision.denied r →
      (postParse jsonParse groq rateLimit ip now timestamp body).2.1 = rateLimitResponse r ∧
      (postParse jsonParse groq rateLimit ip now timestamp body).2.1.status
        = JsValue.number 429 ∧
      (postParse jsonParse groq rateLimit ip now timestamp body).2.1.body.fieldNames
        = ["error", "retryAfter"]) ∧
    ((securityMiddleware rateLimit ip now).2 = Decision.allowed →
      (body.rawText.truthy = false →
        (postParse jsonParse groq rateLimit ip now timestamp body).2.1
          = missingRawTextResponse ∧
        (postParse jsonParse groq rateLimit ip now timestamp body).2.1.status
          = JsValue.number 400 ∧
        (postParse jsonParse groq rateLimit ip now timestamp body).2.1.body.fieldNames
          = ["error"]) ∧
      (body.rawText.truthy = true →
        (∀ c message, groq (chatRequest body) = Completion.resolved (JsValue.string c) →
          jsonParse (cleanJsonResponse c) = Except.error message →
          (postParse jsonParse groq rateLimit ip now timestamp body).2.1
            = parseFailureResponse message (cleanJsonResponse c) ∧
          (postParse jsonParse groq rateLimit ip now timestamp body).2.1.status
            = JsValue.number 500 ∧
          (postParse jsonParse groq rateLimit ip now timestamp body).2.1.body.fieldNames
            = ["error", "details", "rawContent"]) ∧
        (∀ err,
          (groq (chatRequest body) = Completion.rejected err ∨
            ∃ content, groq (chatRequest body) = Completion.resolved content ∧
              (∀ s, content ≠ JsValue.string s) ∧ err = trimTypeError content) →
          (err.status.truthy = false ∨ errorStatus err.status = true) →
          (postParse jsonParse groq rateLimit ip now timestamp body).2.1
            = errorEnvelope err timestamp ∧
          (postParse jsonParse groq rateLimit ip now timestamp body).2.1.status
            = err.status.or (JsValue.number 500) ∧
          (postParse jsonParse groq rateLimit ip now timestamp body).2.1.body.fieldNames
            = ["error", "type", "timestamp"]) ∧
        (∀ c v, groq (chatRequest body) = Completion.resolved (JsValue.string c) →
          jsonParse (cleanJsonResponse c) = Except.ok v →
          (postParse jsonParse groq rateLimit ip now timestamp body).2.1
            = ⟨JsValue.number 200, Body.parsed v⟩))) := by
  refine ⟨fun r hd => ?_, fun ha => ⟨fun ht => ?_, fun ht => ⟨fun c message hg hp => ?_,
    fun err hcause hstatus => ?_, fun c v hg hp => ?_⟩⟩⟩
  · rw [postParse_denied jsonParse groq timestamp body hd]
    exact ⟨rfl, rfl, rfl⟩
  · rw [postParse_allowed jsonParse groq timestamp body ha, parseRoute_invalid jsonParse groq ht]
    exact ⟨rfl, rfl, rfl⟩
  · rw [postParse_allowed jsonParse groq timestamp body ha, parseRoute_error ht hg hp]
    exact ⟨rfl, rfl, rfl⟩
  · have e : (postParse jsonParse groq rateLimit ip now timestamp body).2.1
        = errorEnvelope err timestamp := by
      rw [postParse_allowed jsonParse groq timestamp body ha]
      rcases hcause with hg | ⟨content, hg, hns, rfl⟩
      · rw [parseRoute_rejected jsonParse ht hg]
        exact errorHandler_of_errorStatus err timestamp hstatus
      · rw [parseRoute_not_string jsonParse ht hg hns]
        exact errorHandler_of_errorStatus _ timestamp hstatus
    rw [e]
    exact ⟨rfl, rfl, rfl⟩
  · rw [postParse_allowed jsonParse groq timestamp body ha, parseRoute_ok ht hg hp]

/-- Witness of C14: a denied request gets the 429 with `error` and
`retryAfter`, and a thrown error with the status 503 gets the envelope of
`errorHandler`. -/
theorem error_envelope_witness :
    (postParse parseJohnDoe (fun _ => Completion.resolved JsValue.null)
        (RateLimit.empty.set "198.51.100.4" ⟨100, 0⟩) "198.51.100.4" 0
        "2025-01-01T00:00:00.000Z".toList
        ⟨JsValue.string "John Doe, Software Engineer at Acme".toList,
          JsValue.bool false⟩).2.1 = rateLimitResponse 60 ∧
    (postParse parseJohnDoe
        (fun _ => Completion.rejected ⟨JsValue.number 503, JsValue.undefined,
          JsValue.string "Service unavailable".toList⟩)
        RateLimit.empty "198.51.100.4" 0 "2025-01-01T00:00:00.000Z".toList
        ⟨JsValue.string "John Doe, Software Engineer at Acme".toList,
          JsValue.bool false⟩).2.1.body.fieldNames = ["error", "type", "timestamp"] :=
  ⟨((error_envelope parseJohnDoe (fun _ => Completion.resolved JsValue.null)
      (RateLimit.empty.set "198.51.100.4" ⟨100, 0⟩) "198.51.100.4" 0
      "2025-01-01T00:00:00.000Z".toList
      ⟨JsValue.string "John Doe, Software Engineer at Acme".toList,
        JsValue.bool false⟩).1 60 (by decide)).1,
    ((((error_envelope parseJohnDoe
      (fun _ => Completion.rejected ⟨JsValue.number 503, JsValue.undefined,
        JsValue.string "Service unavailable".toList⟩)
      RateLimit.empty "198.51.100.4" 0 "2025-01-01T00:00:00.000Z".toList
      ⟨JsValue.string "John Doe, Software Engineer at Acme".toList,
        JsValue.bool false⟩).2 (by decide)).2 (by decide)).2.1
      ⟨JsValue.number 503, JsValue.undefined, JsValue.string "Service unavailable".toList⟩
      (Or.inl rfl) (Or.inr (by decide))).2.2⟩

/-- C15 (system prompt): the system message of the request to the completion
service is the same for every `rawText`; it is the vision variant when
`isImage` is true (or truthy) and the text variant when it is false (or
falsy), and the two variants are different strings. -/
theorem system_prompt_by_isImage (rawText1 rawText2 isImage : JsValue) :
    (chatRequest ⟨rawText1, isImage⟩).messages.head?
      = (chatRequest ⟨rawText2, isImage⟩).messages.head? ∧
    (chatRequest ⟨rawText1, isImage⟩).messages.head?
      = some ⟨"system", systemPrompt isImage⟩ ∧
    systemPrompt (JsValue.bool true) = visionSystemPrompt ∧
    systemPrompt (JsValue.bool false) = textSystemPrompt ∧
    systemPrompt isImage
      = (if isImage.truthy then visionSystemPrompt else textSystemPrompt) ∧
    (systemPrompt isImage = visionSystemPrompt ∨ systemPrompt isImage = textSystemPrompt) ∧
    visionSystemPrompt ≠ textSystemPrompt := by
  refine ⟨rfl, rfl, rfl, rfl, rfl, ?_, by decide⟩
  cases h : isImage.truthy
  · right
    unfold systemPrompt
    rw [h]
    rfl
  · left
    unfold systemPrompt
    rw [h]
    rfl

/-- C16 (normalisation only removes text): for every input the result of
`cleanJsonResponse` is a contiguous part of the input; so it is on the text
`] [`, where the last closing bracket comes before the first opening one and
the result is the space between them. -/
theorem only_removes_text (text : JsString) :
    cleanJsonResponse text <:+: text ∧
    cleanJsonResponse "] [".toList = " ".toList ∧
    cleanJsonResponse "\x7d \x7b".toList = " ".toList :=
  ⟨cleanJsonResponse_contiguous text, by decide, by decide⟩
end ResumeR
